import Mathlib

/-!
Verification of the rhttp regexp router (rhttp.go).

Strings are modelled as lists of characters (`Str`).  The routes in the
claims are ASCII, so Go's byte positions coincide with character positions
and Go's byte-wise lexicographic string order coincides with the
code-point order used here (UTF-8 preserves code-point order byte-wise).

The Go regexp engine (package regexp) and strconv are external
collaborators of this repository: compiled matchers are modelled per
route as explicit functions giving the submatch index lists of the
documented regular expression, and the strconv parsers are modelled by
their documented decimal grammars.
-/

abbrev Str := List Char

/-- Shorthand turning a string literal into the list-of-characters model. -/
def strL (s : String) : Str := s.toList

/-- Model of Go byte-wise lexicographic `<` on strings (rhttp compares
prefixes with `<`, `>`, `>=`). -/
def strLt : Str → Str → Bool
  | [], [] => false
  | [], _ :: _ => true
  | _ :: _, [] => false
  | a :: as, b :: bs => if a = b then strLt as bs else decide (a < b)

/-- Model of `strings.HasPrefix path p` (argument order: `hasPfx p path`). -/
def hasPfx : Str → Str → Bool
  | [], _ => true
  | _ :: _, [] => false
  | a :: as, b :: bs => a = b && hasPfx as bs

/-- Go goSlice `s[a:b]` on a string. -/
def goSlice (s : Str) (a b : Nat) : Str := (s.drop a).take (b - a)

/-- Translation of `removeEscapes` (rhttp.go): drop each backslash, keep the
character that follows it verbatim. -/
def removeEscapes : Str → Str
  | [] => []
  | c :: rest =>
    if c = '\\' then
      match rest with
      | [] => []
      | d :: rest2 => d :: removeEscapes rest2
    else c :: removeEscapes rest

/-- Characters escaped by the external `regexp.QuoteMeta`. -/
def isRegexSpecial (c : Char) : Bool :=
  c = '\\' || c = '.' || c = '+' || c = '*' || c = '?' || c = '(' || c = ')' ||
  c = '|' || c = '[' || c = ']' || c = '\x7b' || c = '\x7d' || c = '^' || c = '$'

/-- Model of the external `regexp.QuoteMeta`. -/
def quoteMeta : Str → Str
  | [] => []
  | c :: rest => (if isRegexSpecial c then ['\\', c] else [c]) ++ quoteMeta rest

/-- Translation of `allowedName` (rhttp.go): the anchored regular expression
`[a-zA-Z_]\w*`. -/
def allowedName : Str → Bool
  | [] => false
  | c :: rest => (c.isAlpha || c = '_') && rest.all (fun d => d.isAlphanum || d = '_')

/-- Lookup in an association list modelling a Go map. -/
def mapFind [DecidableEq α] : List (α × β) → α → Option β
  | [], _ => none
  | (k, v) :: rest, a => if k = a then some v else mapFind rest a

/-- Go map read `m[k]` with `0` as the zero value for missing keys. -/
def mapFindD [DecidableEq α] (m : List (α × β)) (a : α) (dflt : β) : β :=
  (mapFind m a).getD dflt

/-- Go map write `m[k] = v`: overwrite the existing binding or append. -/
def mapInsert [DecidableEq α] (m : List (α × β)) (k : α) (v : β) : List (α × β) :=
  if (mapFind m k).isSome then
    m.map (fun p => if p.1 = k then (k, v) else p)
  else
    m ++ [(k, v)]

/-- Error causes of `PatternCompileError` (rhttp.go). -/
inductive ErrorCause
  | Unterminated
  | MissingVariableName
  | InvalidVariableName
  | UndefinedVariable
  | UnmatchedRightParen
deriving DecidableEq

/-- Translation of `PatternCompileError` (rhttp.go); the Go field `at` is
named `atPos` (`at` is reserved). -/
structure PatternCompileError where
  cause : ErrorCause
  currentGroup : Str := []
  pattern : Str := []
  name : Str := []
  atPos : Nat := 0
deriving DecidableEq

/-- Scanner state of `compilePattern` (rhttp.go): its local variables.
`prefixV` is the Go local `prefix` (reserved word in this development). -/
structure CompState where
  err : Option PatternCompileError := none
  prefixV : Str := []
  paramsIndex : List (Nat × Nat) := []
  paramIndex : Nat := 0
  groupBegin : Nat := 0
  groupEnd : Nat := 0
  equals : Nat := 0
  parens : Nat := 0
  regexpString : Str := []
  escape : Bool := false
deriving DecidableEq

/-- Translation of the character loop of `compilePattern` (rhttp.go,
`for i, r := range pattern`).  `i` is the position of the head of `rest`
inside `pattern`; an early `return` inside the loop is an `Except.error`
carrying the `paramsIndex` accumulated so far, exactly as the Go returns do. -/
def compileLoop (pattern : Str) (n2f : List (Str × Nat)) :
    Nat → Str → CompState → Except (List (Nat × Nat) × PatternCompileError) CompState
  | _, [], st => .ok st
  | i, r :: rest, st =>
    if st.escape then
      compileLoop pattern n2f (i + 1) rest { st with escape := false }
    else if st.parens = 0 then
      if r = '\\' then
        compileLoop pattern n2f (i + 1) rest { st with escape := true }
      else if r = '(' then
        -- include the ( in the copied pattern
        let piece := removeEscapes (goSlice pattern st.groupEnd i)
        compileLoop pattern n2f (i + 1) rest
          { st with
            regexpString := st.regexpString ++ quoteMeta piece ++ ['('],
            prefixV := if st.groupBegin = 0 then piece else st.prefixV,
            groupBegin := i,
            equals := i,
            parens := st.parens + 1 }
      else if r = ')' then
        .error (st.paramsIndex,
          { cause := .UnmatchedRightParen, pattern := pattern, atPos := i })
      else
        compileLoop pattern n2f (i + 1) rest st
    else
      if r = '(' then
        compileLoop pattern n2f (i + 1) rest { st with parens := st.parens + 1 }
      else if r = ')' then
        if st.parens - 1 = 0 then
          -- the group is closed: report a pending error now, with the whole
          -- group text, else copy the piece after the = (with the `)`)
          match st.err with
          | some e =>
            .error (st.paramsIndex,
              { e with currentGroup := goSlice pattern st.groupBegin (i + 1), pattern := pattern })
          | none =>
            compileLoop pattern n2f (i + 1) rest
              { st with
                parens := st.parens - 1,
                groupEnd := i + 1,
                regexpString := st.regexpString ++ goSlice pattern (st.equals + 1) (i + 1) }
        else
          compileLoop pattern n2f (i + 1) rest { st with parens := st.parens - 1 }
      else if r = '=' && st.equals = st.groupBegin then
        let name := goSlice pattern (st.groupBegin + 1) i
        let err' : Option PatternCompileError :=
          if name = [] then
            some { cause := .MissingVariableName, atPos := st.groupBegin + 1 }
          else if !allowedName name then
            some { cause := .InvalidVariableName, name := name, atPos := st.groupBegin + 1 }
          else if (mapFind n2f name).isNone then
            some { cause := .UndefinedVariable, name := name, atPos := st.groupBegin + 1 }
          else st.err
        compileLoop pattern n2f (i + 1) rest
          { st with
            err := err',
            paramsIndex := mapInsert st.paramsIndex (mapFindD n2f name 0) st.paramIndex,
            paramIndex := st.paramIndex + 1,
            equals := i }
      else
        compileLoop pattern n2f (i + 1) rest st

/-- Result of `compilePattern` (rhttp.go): the Go function returns the
four-tuple `(*regexp.Regexp, string, map[int]int, error)`.  The compiled
regular expression is modelled by its source text (`re`); the final
`regexp.Compile` of the well-formed anchored text is assumed to succeed,
as it does for every route considered here. -/
structure CompileResult where
  re : Option Str
  pfxOut : Str
  pidx : List (Nat × Nat)
  cErr : Option PatternCompileError
deriving DecidableEq

/-- Translation of `compilePattern` (rhttp.go). -/
def compilePattern (pattern : Str) (n2f : List (Str × Nat)) : CompileResult :=
  match compileLoop pattern n2f 0 pattern {} with
  | .error (pidx, e) => { re := none, pfxOut := [], pidx := pidx, cErr := some e }
  | .ok st =>
    if st.parens ≠ 0 then
      { re := none, pfxOut := [], pidx := st.paramsIndex,
        cErr := some { cause := .Unterminated, pattern := pattern, atPos := st.groupBegin } }
    else
      -- add any remaining part of the pattern outside the groups
      let piece := removeEscapes (goSlice pattern st.groupEnd pattern.length)
      let rs := st.regexpString ++ quoteMeta piece
      let pfx := if st.groupBegin = 0 then piece else st.prefixV
      { re := some (['^'] ++ rs ++ ['$']), pfxOut := pfx, pidx := st.paramsIndex,
        cErr := none }

-- sanity checks against the Go test-suite expectations (rhttp_test.go)
example :
    compilePattern (strL "/(var=.*)/static") [(strL "var", 1)] =
      { re := some (strL "^/(.*)/static$"), pfxOut := strL "/",
        pidx := [(1, 0)], cErr := none } := by decide

example :
    compilePattern (strL "/static") [] =
      { re := some (strL "^/static$"), pfxOut := strL "/static",
        pidx := [], cErr := none } := by decide

example :
    compilePattern (strL "/prefix/(v1=.*)/(v2=\\d*)/(v3=123?)")
      [(strL "v1", 2), (strL "v2", 1), (strL "v3", 3)] =
      { re := some (strL "^/prefix/(.*)/(\\d*)/(123?)$"), pfxOut := strL "/prefix/",
        pidx := [(2, 0), (1, 1), (3, 2)], cErr := none } := by decide

example :
    compilePattern (strL "/prefix(/?)") [] =
      { re := some (strL "^/prefix(/?)$"), pfxOut := strL "/prefix",
        pidx := [], cErr := none } := by decide

example :
    compilePattern (strL "/prefix\\(\\)/(v1=.*)/\\(\\)/") [(strL "v1", 1)] =
      { re := some (strL "^/prefix\\(\\)/(.*)/\\(\\)/$"), pfxOut := strL "/prefix()/",
        pidx := [(1, 0)], cErr := none } := by decide

example :
    compilePattern (strL "/prefix/(v1==)/") [(strL "v1", 1)] =
      { re := some (strL "^/prefix/(=)/$"), pfxOut := strL "/prefix/",
        pidx := [(1, 0)], cErr := none } := by decide

example :
    (compilePattern (strL "/prefix/(v1=") [(strL "v1", 1)]).cErr =
      some { cause := .Unterminated, pattern := strL "/prefix/(v1=", atPos := 8 } := by decide

example :
    (compilePattern (strL "/prefix/(=abc)") [(strL "v1", 1)]).cErr =
      some { cause := .MissingVariableName, currentGroup := strL "(=abc)", pattern := strL "/prefix/(=abc)", atPos := 9 } := by decide

example :
    (compilePattern (strL "/prefix/(()=abc)") [(strL "v1", 1)]).cErr =
      some { cause := .InvalidVariableName, currentGroup := strL "(()=abc)", pattern := strL "/prefix/(()=abc)", name := strL "()", atPos := 9 } := by decide

example :
    (compilePattern (strL "/prefix/(v2=abc)") [(strL "v1", 1)]).cErr =
      some { cause := .UndefinedVariable, currentGroup := strL "(v2=abc)", pattern := strL "/prefix/(v2=abc)", name := strL "v2", atPos := 9 } := by decide

example :
    (compilePattern (strL "/prefix/)(v2=abc)") [(strL "v1", 1)]).cErr =
      some { cause := .UnmatchedRightParen, pattern := strL "/prefix/)(v2=abc)", atPos := 8 } := by decide

/-! ### Parameter shape resolver (`readParams`, rhttp.go) -/

/-- Model of `reflect.Kind` restricted to the kinds the router can meet.
`sliceK` and `boolK` stand for the disallowed kinds. -/
inductive GoKind
  | intK | int8K | int16K | int32K | int64K
  | uintK | uint8K | uint16K | uint32K | uint64K
  | float32K | float64K | stringK
  | sliceK | boolK
deriving DecidableEq

/-- Translation of `allowedType` (rhttp.go). -/
def allowedType : GoKind → Bool
  | .intK | .int8K | .int16K | .int32K | .int64K => true
  | .uintK | .uint8K | .uint16K | .uint32K | .uint64K => true
  | .float32K | .float64K | .stringK => true
  | _ => false

/-- One field of a params struct: its Go name, its `rhttp` tag (empty when
the field is untagged, as `Tag.Get` returns `""` then) and its kind. -/
structure GoField where
  fname : Str
  tag : Str
  kind : GoKind
deriving DecidableEq

instance : Inhabited GoField := ⟨{ fname := [], tag := [], kind := .boolK }⟩

/-- Field loop of `readParams` (rhttp.go), recursing over the fields with
their index `i`. -/
def readParamsGo : List GoField → Nat → List (Str × Nat) →
    Except Str (List (Str × Nat))
  | [], _, n2f => .ok n2f
  | f :: rest, i, n2f =>
    if f.tag ≠ [] then
      if !allowedName f.tag then
        .error (strL "Invalid param name")
      else if !allowedType f.kind then
        .error (strL "Invalid param type")
      else
        readParamsGo rest (i + 1) (mapInsert n2f f.tag i)
    else
      -- untagged fields are assigned by name with lower precedence;
      -- incompatible fields are simply ignored
      if allowedType f.kind && allowedName f.fname && (mapFind n2f f.fname).isNone then
        readParamsGo rest (i + 1) (mapInsert n2f f.fname i)
      else
        readParamsGo rest (i + 1) n2f

/-- Translation of `readParams` (rhttp.go).  A `none` argument models a nil
`params` pointer (empty scope, no params type); `some fields` models a
pointer to a struct with the given fields.  The non-pointer and
non-struct error paths concern arguments no route in the claims uses. -/
def readParams : Option (List GoField) →
    Except Str (List (Str × Nat) × Option (List GoField))
  | none => .ok ([], none)
  | some fields => (readParamsGo fields 0 []).map (fun n2f => (n2f, some fields))

-- sanity checks against rhttp_test.go (TestReadParams*)
example :
    readParams (some
      [ { fname := strL "F", tag := strL "v1", kind := .float64K },
        { fname := strL "U", tag := strL "v2", kind := .uintK },
        { fname := strL "S", tag := strL "v3", kind := .stringK },
        { fname := strL "I", tag := strL "v4", kind := .intK } ]) =
    .ok ([(strL "v1", 0), (strL "v2", 1), (strL "v3", 2), (strL "v4", 3)],
      some [ { fname := strL "F", tag := strL "v1", kind := .float64K },
             { fname := strL "U", tag := strL "v2", kind := .uintK },
             { fname := strL "S", tag := strL "v3", kind := .stringK },
             { fname := strL "I", tag := strL "v4", kind := .intK } ]) := by rfl

example :
    (readParams (some
      [ { fname := strL "V1", tag := [], kind := .float64K },
        { fname := strL "V2", tag := strL "V1", kind := .uintK } ])).map (·.1) =
    .ok [(strL "V1", 1)] := by rfl

example :
    (readParams (some
      [ { fname := strL "V1", tag := strL "V2", kind := .float64K },
        { fname := strL "V2", tag := [], kind := .uintK } ])).map (·.1) =
    .ok [(strL "V2", 0)] := by rfl

example :
    (readParams (some [ { fname := strL "V1", tag := [], kind := .sliceK } ])).map (·.1) =
    .ok [] := by rfl

example :
    (readParams (some [ { fname := strL "V1", tag := strL "v1", kind := .sliceK } ])).isOk =
    false := by rfl

/-! ### strconv models (external collaborators of the dispatcher) -/

/-- Numeric value of a non-empty all-digit string. -/
def digitsVal : Str → Option Nat
  | [] => none
  | s => if s.all Char.isDigit then
      some (s.foldl (fun acc c => acc * 10 + (c.toNat - 48)) 0)
    else none

/-- Model of the external `strconv.ParseInt(s, 10, 64)`: optional sign,
decimal digits, 64-bit signed range check. -/
def goParseInt (s : Str) : Option Int :=
  match s with
  | '+' :: r => (digitsVal r).bind (fun n =>
      if n ≤ 2 ^ 63 - 1 then some (Int.ofNat n) else none)
  | '-' :: r => (digitsVal r).bind (fun n =>
      if n ≤ 2 ^ 63 then some (-(Int.ofNat n)) else none)
  | r => (digitsVal r).bind (fun n =>
      if n ≤ 2 ^ 63 - 1 then some (Int.ofNat n) else none)

/-- Model of the external `strconv.ParseUint(s, 10, 64)`: no sign, decimal
digits, 64-bit unsigned range check. -/
def goParseUint (s : Str) : Option Nat :=
  (digitsVal s).bind (fun n => if n ≤ 2 ^ 64 - 1 then some n else none)

/-- Decimal mantissa-exponent shape accepted by `strconv.ParseFloat`
after the sign: digits, optionally `.` and digits (at least one digit on
one side), optionally an exponent. -/
def floatBody (s : Str) : Bool :=
  let ip := s.takeWhile Char.isDigit
  let r1 := s.dropWhile Char.isDigit
  match r1 with
  | [] => !ip.isEmpty
  | '.' :: r2 =>
    let fp := r2.takeWhile Char.isDigit
    let r3 := r2.dropWhile Char.isDigit
    (!ip.isEmpty || !fp.isEmpty) &&
      (match r3 with
       | [] => true
       | 'e' :: r4 | 'E' :: r4 =>
         (match r4 with
          | '+' :: d | '-' :: d => !d.isEmpty && d.all Char.isDigit
          | d => !d.isEmpty && d.all Char.isDigit)
       | _ => false)
  | 'e' :: r4 | 'E' :: r4 =>
    !ip.isEmpty &&
      (match r4 with
       | '+' :: d | '-' :: d => !d.isEmpty && d.all Char.isDigit
       | d => !d.isEmpty && d.all Char.isDigit)
  | _ => false

/-- Model of the external `strconv.ParseFloat(s, 64)` for the decimal forms
the routes can meet (hex floats, inf and NaN spellings omitted).  The
parsed value is kept as the accepted literal, since no route computes
with it. -/
def goParseFloat (s : Str) : Option Str :=
  match s with
  | '+' :: r | '-' :: r => if floatBody r then some s else none
  | r => if floatBody r then some s else none

/-! ### Dispatcher (`ServeHTTP`, rhttp.go) -/

/-- Values a params struct field can receive in the coercion switch of
`ServeHTTP`; a float is kept as its accepted literal. -/
inductive GoValue
  | intV (v : Int)
  | uintV (v : Nat)
  | floatV (raw : Str)
  | strV (s : Str)
deriving DecidableEq

/-- Go slice `path[a:b]` with the `int` indices of a regexp match. -/
def strSlice (path : Str) (a b : Int) : Str :=
  (path.drop a.toNat).take (b - a).toNat

/-- Translation of the value-extraction loop of `ServeHTTP` (rhttp.go,
`for i := 2; i < len(is); i += 2`): walk the capture ranges, keep one when
its start is at least the current `matchEnd`. -/
def extractLoop (path : Str) (matchEnd : Int) : List (Int × Int) → List Str
  | [] => []
  | (s, e) :: rest =>
    if matchEnd ≤ s then strSlice path s e :: extractLoop path e rest
    else extractLoop path matchEnd rest

/-- Value extraction of `ServeHTTP` over the capture ranges (the ranges
after the full-match pair), starting with `matchEnd = 0`. -/
def extractVals (path : Str) (caps : List (Int × Int)) : List Str :=
  extractLoop path 0 caps

/-- Outcome of the params-coercion loop of `ServeHTTP`: all entries parsed,
a parse failed (`goto keepLooking`), or a run-time panic (the `default`
branch of the kind switch, or an out-of-range index). -/
inductive CoerceOutcome
  | ok (ps : List (Nat × GoValue))
  | typeFail
  | panicked (msg : Str)
deriving DecidableEq

/-- Translation of the coercion loop of `ServeHTTP` (rhttp.go,
`for f, v := range r.routes[h].paramsIndex`), iterating the map in the
model's association order (Go's map order is unspecified; which entry
fails first is immaterial, any failure means `goto keepLooking`). -/
def coerceLoop (fields : List GoField) (vals : List Str) :
    List (Nat × Nat) → CoerceOutcome
  | [] => .ok []
  | (f, v) :: rest =>
    if f < fields.length then
      if v < vals.length then
        let fld := fields.getD f default
        let val := vals.getD v []
        let one : Option GoValue :=
          match fld.kind with
          | .intK | .int8K | .int16K | .int32K | .int64K =>
            (goParseInt val).map GoValue.intV
          | .uintK | .uint8K | .uint16K | .uint32K | .uint64K =>
            (goParseUint val).map GoValue.uintV
          | .float32K | .float64K =>
            (goParseFloat val).map GoValue.floatV
          | .stringK => some (GoValue.strV val)
          | _ => none
        match fld.kind with
        | .sliceK | .boolK => .panicked (strL "Cannot set type")
        | _ =>
          match one with
          | none => .typeFail
          | some gv =>
            match coerceLoop fields vals rest with
            | .ok ps => .ok ((f, gv) :: ps)
            | other => other
      else .panicked (strL "index out of range")
    else .panicked (strL "field index out of range")

/-- Coercion step of `ServeHTTP` for one route: build the params values from
the route's `paramsIndex` and the extracted capture values. -/
def coerceParams (fields : List GoField) (pidx : List (Nat × Nat))
    (vals : List Str) : CoerceOutcome :=
  coerceLoop fields vals pidx

/-- Translation of `regexpHandler` (rhttp.go).  The compiled
`*regexp.Regexp` is modelled by its source text plus an explicit matcher
function standing for `re.FindStringSubmatchIndex`: `none` models the nil
(no-match) return and `some l` the index list, as start-end pairs with the
full-match pair first. -/
structure RegexpHandler where
  handlerId : Nat
  pfx : Str
  regexStr : Str
  matcher : Str → Option (List (Int × Int))
  paramsType : Option (List GoField)
  paramsIndex : List (Nat × Nat)

instance : Inhabited RegexpHandler :=
  ⟨{ handlerId := 0, pfx := [], regexStr := [], matcher := fun _ => none,
     paramsType := none, paramsIndex := [] }⟩

/-- Binary-search loop of the external `sort.Search`: invariant interval
`[i, j)`, probe at `(i+j)/2`.  The width `j - i` shrinks strictly at every
iteration, so a fuel of the initial width runs the loop to completion;
fuel keeps the model structurally recursive (kernel-computable). -/
def searchLoop (fuel : Nat) (f : Nat → Bool) (i j : Nat) : Nat :=
  match fuel with
  | 0 => i
  | fuel + 1 =>
    if i < j then
      let m := (i + j) / 2
      if f m then searchLoop fuel f i m else searchLoop fuel f (m + 1) j
    else i

/-- Model of the external `sort.Search(n, f)`. -/
def goSortSearch (n : Nat) (f : Nat → Bool) : Nat := searchLoop n f 0 n

/-- Insertion step of `Handle` (rhttp.go): place the new route before all
routes whose prefix is `>=` its own. -/
def insertRoute (routes : List RegexpHandler) (rh : RegexpHandler) :
    List RegexpHandler :=
  let i := goSortSearch routes.length
    (fun k => !strLt (routes.getD k default).pfx rh.pfx)
  routes.take i ++ rh :: routes.drop i

/-- Translation of `Handle` (rhttp.go): resolve the params scope, compile
the pattern, insert the compiled route.  A Go panic (registration error)
is the `none` result.  The compiled matcher is supplied by the caller,
standing for the external `regexp.Compile` of the compiled text. -/
def handleRoute (routes : List RegexpHandler) (pattern : Str) (hid : Nat)
    (params : Option (List GoField)) (matcher : Str → Option (List (Int × Int))) :
    Option (List RegexpHandler) :=
  match readParams params with
  | .error _ => none
  | .ok (n2f, ptype) =>
    let cr := compilePattern pattern n2f
    match cr.re, cr.cErr with
    | some rs, none =>
      some (insertRoute routes
        { handlerId := hid, pfx := cr.pfxOut, regexStr := rs, matcher := matcher,
          paramsType := ptype, paramsIndex := cr.pidx })
    | _, _ => none

/-- Outcome of `ServeHTTP`: `http.NotFound`, a handler invocation (with the
params passed to it, `none` for a nil interface), or a run-time panic. -/
inductive DispatchResult
  | NotFound
  | Invoked (hid : Nat) (params : Option (List (Nat × GoValue)))
  | Panic (msg : Str)
deriving DecidableEq

/-- Body of the dispatch loop of `ServeHTTP` for the route at one index:
`none` means the route is rejected (no regexp match, or a failed type
coercion) and the backward scan continues. -/
def tryRoute (rh : RegexpHandler) (path : Str) : Option DispatchResult :=
  match rh.matcher path with
  | none => none
  | some is =>
    match rh.paramsType with
    | none => some (.Invoked rh.handlerId none)
    | some fields =>
      match coerceParams fields rh.paramsIndex (extractVals path is.tail) with
      | .ok ps => some (.Invoked rh.handlerId (some ps))
      | .typeFail => none
      | .panicked m => some (.Panic m)

/-- Backward scan of `ServeHTTP` (rhttp.go, label `keepLooking` plus the
`for ; h >= 0 && strings.HasPrefix(...)` loop): the argument is `h + 1`,
so `0` models the Go cursor having passed the front of the table.  The
scan stops with `NotFound` at the first index whose prefix is not a
leading substring of the path. -/
def scanFrom (routes : List RegexpHandler) (path : Str) : Nat → DispatchResult
  | 0 => .NotFound
  | k + 1 =>
    let rh := routes.getD k default
    if hasPfx rh.pfx path then
      match tryRoute rh path with
      | some r => r
      | none => scanFrom routes path k
    else .NotFound

/-- Boundary search of `ServeHTTP`: the smallest index whose prefix is
`> path`. -/
def dispBoundary (routes : List RegexpHandler) (path : Str) : Nat :=
  goSortSearch routes.length (fun i => strLt path (routes.getD i default).pfx)

/-- Translation of `ServeHTTP` (rhttp.go): binary-search the boundary, then
scan backward through the matching prefixes. -/
def dispatch (routes : List RegexpHandler) (path : Str) : DispatchResult :=
  scanFrom routes path (dispBoundary routes path)

/-! ### Concrete matchers

Each one models `FindStringSubmatchIndex` of one concrete compiled
regular expression of the claims (Go regexp submatch semantics:
leftmost match, greedy quantifiers take the longest alternative). -/

/-- Matcher of an anchored literal regexp `^lit$` (a pattern with no
groups): the sole matching path is the literal itself. -/
def matchLit (lit : Str) (path : Str) : Option (List (Int × Int)) :=
  if path = lit then some [(0, lit.length)] else none

/-- Matcher of `^lit(/?)$` (the `(/?)` route idiom): the group captures the
optional trailing slash. -/
def matchLitOptSlash (lit : Str) (path : Str) : Option (List (Int × Int)) :=
  if path = lit then
    some [(0, Int.ofNat lit.length), (Int.ofNat lit.length, Int.ofNat lit.length)]
  else if path = lit ++ ['/'] then
    some [(0, Int.ofNat lit.length + 1), (Int.ofNat lit.length, Int.ofNat lit.length + 1)]
  else none

/-- Largest position of `c` in `s`. -/
def lastIdxOf (c : Char) (s : Str) : Option Nat :=
  ((List.range s.length).filter (fun i => s.getD i ' ' = c)).getLast?

/-- Matcher of `^/(.*)/(.*)$`: a matching path starts with `/` and has a
second `/`; the greedy first group runs to the last `/`. -/
def matchSlashes (path : Str) : Option (List (Int × Int)) :=
  match path with
  | '/' :: rest =>
    if rest.contains '/' then
      match lastIdxOf '/' path with
      | some k => some [(0, Int.ofNat path.length), (1, Int.ofNat k),
                        (Int.ofNat k + 1, Int.ofNat path.length)]
      | none => none
    else none
  | _ => none

/-- Matcher of `^/([abc])$` (the package example `/(s=[abc])`). -/
def matchABC (path : Str) : Option (List (Int × Int)) :=
  if path = strL "/a" || path = strL "/b" || path = strL "/c" then
    some [(0, 2), (1, 2)]
  else none

-- sanity: the package example (ExampleRegexpRouter, rhttp_test.go)
example :
    ((handleRoute [] (strL "/(s=[abc])") 1
        (some [{ fname := strL "S", tag := strL "s", kind := .stringK }])
        matchABC).map
      (fun t => (dispatch t (strL "/a"), dispatch t (strL "/b"), dispatch t (strL "/d")))) =
    some (.Invoked 1 (some [(0, .strV (strL "a"))]),
          .Invoked 1 (some [(0, .strV (strL "b"))]),
          .NotFound) := by decide

/-- Route table of TestRegexpRouterRoutesSorting (rhttp_test.go): ten
routes registered in the order of the test, handler ids matching the
test's handler numbers. -/
def tableSorting : Option (List RegexpHandler) :=
  (handleRoute [] (strL "/b/c") 9 none (matchLit (strL "/b/c"))).bind fun t =>
  (handleRoute t (strL "/b/c(/?)") 10 none (matchLitOptSlash (strL "/b/c"))).bind fun t =>
  (handleRoute t (strL "/b") 7 none (matchLit (strL "/b"))).bind fun t =>
  (handleRoute t (strL "/b(/?)") 8 none (matchLitOptSlash (strL "/b"))).bind fun t =>
  (handleRoute t (strL "/a/b/c") 5 none (matchLit (strL "/a/b/c"))).bind fun t =>
  (handleRoute t (strL "/a/b/c(/?)") 6 none (matchLitOptSlash (strL "/a/b/c"))).bind fun t =>
  (handleRoute t (strL "/a/b") 3 none (matchLit (strL "/a/b"))).bind fun t =>
  (handleRoute t (strL "/a/b(/?)") 4 none (matchLitOptSlash (strL "/a/b"))).bind fun t =>
  (handleRoute t (strL "/a") 1 none (matchLit (strL "/a"))).bind fun t =>
  handleRoute t (strL "/a(/?)") 2 none (matchLitOptSlash (strL "/a"))

-- sanity: the ten dispatch expectations of TestRegexpRouterRoutesSorting
example :
    (tableSorting.map (fun t =>
      [ dispatch t (strL "/a"), dispatch t (strL "/a/"),
        dispatch t (strL "/a/b"), dispatch t (strL "/a/b/"),
        dispatch t (strL "/a/b/c"), dispatch t (strL "/a/b/c/"),
        dispatch t (strL "/b"), dispatch t (strL "/b/"),
        dispatch t (strL "/b/c"), dispatch t (strL "/b/c/") ])) =
    some [ .Invoked 1 none, .Invoked 2 none, .Invoked 3 none, .Invoked 4 none,
           .Invoked 5 none, .Invoked 6 none, .Invoked 7 none, .Invoked 8 none,
           .Invoked 9 none, .Invoked 10 none ] := by decide

/-! ### Concrete route tables of the claims -/

/-- Routes `R1="/a"` then `R2="/a(/?)"` of the precedence claim. -/
def tableC2 : Option (List RegexpHandler) :=
  (handleRoute [] (strL "/a") 1 none (matchLit (strL "/a"))).bind fun t =>
  handleRoute t (strL "/a(/?)") 2 none (matchLitOptSlash (strL "/a"))

/-- Params record `{V1:int, V2:int}` of route `P1`. -/
def fieldsP1 : List GoField :=
  [ { fname := strL "V1", tag := [], kind := .intK },
    { fname := strL "V2", tag := [], kind := .intK } ]

/-- Params record `{V1:int, V2:string}` of route `P2`. -/
def fieldsP2 : List GoField :=
  [ { fname := strL "V1", tag := [], kind := .intK },
    { fname := strL "V2", tag := [], kind := .stringK } ]

/-- Routes `P1` then `P2`, both on pattern `/(V1=.*)/(V2=.*)`
(ExampleRegexpRouterTyped, rhttp_test.go). -/
def tableC3 : Option (List RegexpHandler) :=
  (handleRoute [] (strL "/(V1=.*)/(V2=.*)") 1 (some fieldsP1) matchSlashes).bind fun t =>
  handleRoute t (strL "/(V1=.*)/(V2=.*)") 2 (some fieldsP2) matchSlashes

-- sanity: the remaining expectations of ExampleRegexpRouterTyped
example :
    (tableC3.map (fun t =>
      (dispatch t (strL "/123/123"), dispatch t (strL "/123/"),
       dispatch t (strL "//abc")))) =
    some (.Invoked 1 (some [(0, .intV 123), (1, .intV 123)]),
          .Invoked 2 (some [(0, .intV 123), (1, .strV [])]),
          .NotFound) := by decide

/-- Params record of the route `/a/(v=.*)` below. -/
def fieldsA : List GoField := [ { fname := strL "V", tag := strL "v", kind := .stringK } ]

/-- Matcher of `^/a/(.*)$`: any path starting with `/a/` matches, the group
capturing the rest. -/
def matchSlashARest (path : Str) : Option (List (Int × Int)) :=
  if hasPfx (strL "/a/") path then
    some [(0, Int.ofNat path.length), (3, Int.ofNat path.length)]
  else none

/-- Matcher of `^/a/x(y)$`: the sole matching path is `/a/xy`. -/
def matchAXY (path : Str) : Option (List (Int × Int)) :=
  if path = strL "/a/xy" then some [(0, 5), (4, 5)] else none

/-- Table with prefixes `/a/`, `/a/q`, `/a/x`: the middle prefix separates
the other two in the lexicographic order while not leading `/a/x`. -/
def tableC1 : Option (List RegexpHandler) :=
  (handleRoute [] (strL "/a/(v=.*)") 1 (some fieldsA) matchSlashARest).bind fun t =>
  (handleRoute t (strL "/a/q") 2 none (matchLit (strL "/a/q"))).bind fun t =>
  handleRoute t (strL "/a/x(y)") 3 none matchAXY

/-! ### Claim C2 -/

/-- C2: with routes registered in order `R1="/a"` then `R2="/a(/?)"`,
dispatching `/a` invokes R1's handler and dispatching `/a/` invokes R2's
handler. -/
theorem c2_precedence :
    tableC2.map (fun t => (dispatch t (strL "/a"), dispatch t (strL "/a/"))) =
      some (.Invoked 1 none, .Invoked 2 none) := by decide

/-! ### Claim C3 -/

/-- C3: with `P1="/(V1=.*)/(V2=.*)"` bound to `{V1:int, V2:int}` registered
before `P2` with the identical pattern bound to `{V1:int, V2:string}`,
dispatching `/123/abc` rejects `P1` (its coercion fails on `abc`, the
first conjunct) and invokes `P2`'s handler with `V1=123`, `V2="abc"` (the
second conjunct). -/
theorem c3_backtracking :
    coerceParams fieldsP1 [(0, 0), (1, 1)] [strL "123", strL "abc"] = .typeFail ∧
    tableC3.map (fun t => dispatch t (strL "/123/abc")) =
      some (.Invoked 2 (some [(0, .intV 123), (1, .strV (strL "abc"))])) := by decide

/-! ### Claim C5 (the failing input) -/

/-- C5, failing input: on the pattern `(v=x)y`, whose first group starts at
position 0, the code yields the prefix `y` — the literal after the group —
instead of the empty prefix required by the claim and by the package
documentation (the prefix is from the beginning of the pattern until the
first group).  The sentinel `groupBegin == 0` cannot distinguish "no
group seen yet" from "a group began at position 0". -/
theorem c5_prefix_of_group_at_zero :
    compilePattern (strL "(v=x)y") [(strL "v", 0)] =
      { re := some (strL "^(x)y$"), pfxOut := strL "y", pidx := [(0, 0)],
        cErr := none } ∧ strL "y" ≠ [] := by decide

/-! ### Claim C1, counterexample -/

/-- C1 is false as stated: dispatching `/a/x` against `tableC1` returns
`NotFound` (first conjunct) although the registered route `/a/(v=.*)` has
a prefix `/a/` that leads `/a/x` (second conjunct), its regexp matches
the path (third conjunct) and its values coerce (fourth conjunct).  The
backward scan stops at the route with prefix `/a/q`, which sits between
`/a/` and `/a/x` in the lexicographic order without leading the path, so
not every route whose prefix leads the path is evaluated before
`NotFound`. -/
theorem c1_counterexample :
    tableC1.map (fun t => dispatch t (strL "/a/x")) = some .NotFound ∧
    hasPfx (strL "/a/") (strL "/a/x") = true ∧
    matchSlashARest (strL "/a/x") = some [(0, 4), (3, 4)] ∧
    coerceParams fieldsA [(0, 0)] (extractVals (strL "/a/x") [(3, 4)]) =
      .ok [(0, .strV (strL "x"))] := by decide

/-! ### Claim C6, counterexample -/

/-- C6 is false as stated: the pattern `/a(v=x(y*))` has exactly one
top-level user group (its compiled `paramsIndex` binds the single slot 0,
first conjunct); on the path `/ax` the compiled `^/a(x(y*))$` yields the
capture ranges `(2,3)` (the user group, capturing `x`) and `(3,3)` (the
nested `(y*)`, empty at the right edge of its parent); the extraction
keeps BOTH (second conjunct), because the nested capture's start equals
the end of the kept capture, so a nested capture does contribute an entry
and more than one value is kept for one top-level user group. -/
theorem c6_counterexample :
    compilePattern (strL "/a(v=x(y*))") [(strL "v", 0)] =
      { re := some (strL "^/a(x(y*))$"), pfxOut := strL "/a", pidx := [(0, 0)],
        cErr := none } ∧
    extractVals (strL "/ax") [(2, 3), (3, 3)] = [strL "x", []] ∧
    ((2 : Int) ≤ 3 ∧ (3 : Int) ≤ 3) := by decide

/-! ### Claim C7, counterexample -/

/-- C7 is false as stated: in the pattern `/(a(b=c))` no unescaped `=`
occurs inside the outer group before a nested parenthesis opens, so by the
claim the group should be anonymous and compilation should succeed with
the whole content copied verbatim; the code instead takes the `=` sitting
inside the nested parentheses as the name separator, reads the name
`a(b`, and rejects the pattern with `InvalidVariableName`. -/
theorem c7_counterexample :
    compilePattern (strL "/(a(b=c))") [] =
      { re := none, pfxOut := [], pidx := [(0, 0)],
        cErr := some { cause := .InvalidVariableName,
                       currentGroup := strL "(a(b=c))", pattern := strL "/(a(b=c))",
                       name := strL "a(b", atPos := 2 } } := by decide

/-! ### Order facts about the modelled string comparison -/

theorem strLt_irrefl (a : Str) : strLt a a = false := by
  induction a with
  | nil => rfl
  | cons c rest ih => simp [strLt, ih]

theorem strLt_trans : ∀ {a b c : Str},
    strLt a b = true → strLt b c = true → strLt a c = true := by
  intro a
  induction a with
  | nil =>
    intro b c hab hbc
    cases b with
    | nil => simp [strLt] at hab
    | cons y ys =>
      cases c with
      | nil => simp [strLt] at hbc
      | cons z zs => rfl
  | cons x xs ih =>
    intro b c hab hbc
    cases b with
    | nil => simp [strLt] at hab
    | cons y ys =>
      cases c with
      | nil => simp [strLt] at hbc
      | cons z zs =>
        simp only [strLt] at hab hbc ⊢
        by_cases hxy : x = y
        · subst hxy
          rw [if_pos rfl] at hab
          by_cases hxz : x = z
          · subst hxz
            rw [if_pos rfl] at hbc ⊢
            exact ih hab hbc
          · rw [if_neg hxz] at hbc ⊢
            exact hbc
        · rw [if_neg hxy] at hab
          by_cases hyz : y = z
          · subst hyz
            rw [if_neg hxy]
            exact hab
          · rw [if_neg hyz] at hbc
            have hlt : x < z := lt_trans (of_decide_eq_true hab) (of_decide_eq_true hbc)
            rw [if_neg (ne_of_lt hlt)]
            exact decide_eq_true hlt

theorem strLt_total_eq : ∀ {a b : Str},
    strLt a b = false → strLt b a = false → a = b := by
  intro a
  induction a with
  | nil =>
    intro b hab _
    cases b with
    | nil => rfl
    | cons y ys => simp [strLt] at hab
  | cons x xs ih =>
    intro b hab hba
    cases b with
    | nil => simp [strLt] at hba
    | cons y ys =>
      by_cases hxy : x = y
      · subst hxy
        simp [strLt] at hab hba
        exact congrArg (x :: ·) (ih hab hba)
      · simp [strLt, hxy, Ne.symm hxy] at hab hba
        all_goals exact absurd (le_antisymm hba hab) hxy

theorem strLt_of_hasPfx_ne : ∀ {p q : Str},
    hasPfx p q = true → p ≠ q → strLt p q = true := by
  intro p
  induction p with
  | nil =>
    intro q _ hne
    cases q with
    | nil => exact absurd rfl hne
    | cons y ys => rfl
  | cons x xs ih =>
    intro q hpfx hne
    cases q with
    | nil => simp [hasPfx] at hpfx
    | cons y ys =>
      simp [hasPfx] at hpfx
      obtain ⟨hxy, hrest⟩ := hpfx
      subst hxy
      have : xs ≠ ys := fun h => hne (by rw [h])
      simp [strLt]
      exact ih hrest this

theorem hasPfx_of_both : ∀ {s p q : Str},
    hasPfx p s = true → hasPfx q s = true → p.length ≤ q.length →
    hasPfx p q = true := by
  intro s
  induction s with
  | nil =>
    intro p q hp hq _
    cases p with
    | nil => rfl
    | cons x xs => simp [hasPfx] at hp
  | cons c cs ih =>
    intro p q hp hq hlen
    cases p with
    | nil => rfl
    | cons x xs =>
      cases q with
      | nil => simp at hlen
      | cons y ys =>
        simp [hasPfx] at hp hq ⊢
        obtain ⟨hx, hp'⟩ := hp
        obtain ⟨hy, hq'⟩ := hq
        subst hx; subst hy
        simp at hlen
        exact ⟨rfl, ih hp' hq' hlen⟩

/-! ### Specification of the binary search -/

theorem f_true_up {n : Nat} {f : Nat → Bool}
    (hmono : ∀ k, k + 1 < n → f k = true → f (k + 1) = true) :
    ∀ m k, f m = true → m ≤ k → k < n → f k = true := by
  intro m k hm hle hk
  induction k, hle using Nat.le_induction with
  | base => exact hm
  | succ k hmk ih => exact hmono k hk (ih (Nat.lt_of_succ_lt hk))

theorem searchLoop_spec {n : Nat} {f : Nat → Bool}
    (hmono : ∀ k, k + 1 < n → f k = true → f (k + 1) = true) :
    ∀ fuel i j, j - i ≤ fuel → i ≤ j → j ≤ n →
      (∀ k, k < i → f k = false) → (∀ k, j ≤ k → k < n → f k = true) →
      (∀ k, k < searchLoop fuel f i j → f k = false) ∧
      (∀ k, searchLoop fuel f i j ≤ k → k < n → f k = true) ∧
      i ≤ searchLoop fuel f i j ∧ searchLoop fuel f i j ≤ j := by
  intro fuel
  induction fuel with
  | zero =>
    intro i j hfuel hij hjn hlow hhigh
    have : i = j := by omega
    subst this
    exact ⟨fun k hk => hlow k hk, fun k hk hkn => hhigh k hk hkn, le_refl i, le_refl i⟩
  | succ fuel ih =>
    intro i j hfuel hij hjn hlow hhigh
    by_cases hlt : i < j
    · simp only [searchLoop, if_pos hlt]
      by_cases hfm : f ((i + j) / 2) = true
      · simp only [if_pos hfm]
        have := ih i ((i + j) / 2) (by omega) (by omega) (by omega) hlow
          (fun k hk hkn => f_true_up hmono _ _ hfm hk hkn)
        exact ⟨this.1, this.2.1, this.2.2.1, by omega⟩
      · simp only [if_neg hfm]
        have hnew : ∀ k, k < (i + j) / 2 + 1 → f k = false := by
          intro k hk
          by_cases hki : k < i
          · exact hlow k hki
          · rcases Bool.eq_false_or_eq_true (f k) with h | h
            · exact absurd (f_true_up hmono k ((i + j) / 2) h (by omega) (by omega))
                (by simp [hfm])
            · exact h
        have := ih ((i + j) / 2 + 1) j (by omega) (by omega) hjn hnew hhigh
        exact ⟨this.1, this.2.1, by omega, this.2.2.2⟩
    · simp only [searchLoop, if_neg hlt]
      have : i = j := by omega
      subst this
      exact ⟨fun k hk => hlow k hk, fun k hk hkn => hhigh k hk hkn, le_refl i, le_refl i⟩

theorem goSortSearch_spec {n : Nat} {f : Nat → Bool}
    (hmono : ∀ k, k + 1 < n → f k = true → f (k + 1) = true) :
    (∀ k, k < goSortSearch n f → f k = false) ∧
    (∀ k, goSortSearch n f ≤ k → k < n → f k = true) ∧
    goSortSearch n f ≤ n := by
  have := searchLoop_spec hmono n 0 n (by omega) (by omega) (le_refl n)
    (fun k hk => absurd hk (Nat.not_lt_zero k)) (fun k hk hkn => absurd hkn (by omega))
  exact ⟨this.1, this.2.1, this.2.2.2⟩

/-! ### Claim C6, amended -/

/-- Nesting structure of a capture-range list relative to a running
`matchEnd`: `Nests m rs ts` holds when `ts` is the subsequence of `rs`
whose members start at or after the end of the previously selected range
(starting from `m`), every other member of `rs` starting strictly before
that end.  For a regexp match of a compiled route, the ranges of `ts` are
the selectable captures: the top-level user-group ranges together with any
nested capture sitting exactly at the right edge of its parent. -/
inductive Nests : Int → List (Int × Int) → List (Int × Int) → Prop
  | nil (m : Int) : Nests m [] []
  | keep (m s e : Int) (rs ts : List (Int × Int)) :
      m ≤ s → Nests e rs ts → Nests m ((s, e) :: rs) ((s, e) :: ts)
  | toss (m s e : Int) (rs ts : List (Int × Int)) :
      s < m → Nests m rs ts → Nests m ((s, e) :: rs) ts

theorem extractLoop_nests (path : Str) :
    ∀ {m rs ts}, Nests m rs ts →
      extractLoop path m rs = ts.map (fun p => strSlice path p.1 p.2) := by
  intro m rs ts h
  induction h with
  | nil => rfl
  | keep m s e rs ts hms _ ih =>
    simp only [extractLoop, if_pos hms, ih, List.map_cons]
  | toss m s e rs ts hsm _ ih =>
    simp only [extractLoop, if_neg (not_le_of_lt hsm), ih]

/-- C6, amended: the value extraction of `ServeHTTP` keeps, in
left-to-right order, exactly the capture ranges whose start offset is at
least the end offset of the last kept capture — the top-level user-group
ranges plus any capture nested in a kept range but starting exactly at
its end (an empty capture at the parent's right edge) — and discards every
capture range starting strictly before the end of the last kept capture
(in particular every nested capture starting strictly inside its
parent). -/
theorem c6_extraction (path : Str) (rs ts : List (Int × Int))
    (h : Nests 0 rs ts) :
    extractVals path rs = ts.map (fun p => strSlice path p.1 p.2) :=
  extractLoop_nests path h

/-- Witness for the amended C6 at the capture ranges of
`^/(.*)/(.*)$` on `/123/abc` with an interposed nested range `(2,3)`. -/
theorem c6_extraction_witness :
    extractVals (strL "/123/abc") [(1, 4), (2, 3), (5, 8)] =
      [strL "123", strL "abc"] :=
  (c6_extraction (strL "/123/abc") [(1, 4), (2, 3), (5, 8)] [(1, 4), (5, 8)]
    (Nests.keep 0 1 4 _ _ (by decide)
      (Nests.toss 4 2 3 _ _ (by decide)
        (Nests.keep 4 5 8 _ _ (by decide) (Nests.nil 8))))).trans (by decide)

/-! ### Claim C4: the route-table invariant -/

/-- Ordering invariant of the route table (rhttp.go, `Handle`): ascending
prefixes, and among equal prefixes a strictly descending registration
order (`handlerId` plays the registration ordinal: the most recently
inserted route of a run sits at the lowest index). -/
def tableOrd (a b : RegexpHandler) : Prop :=
  strLt a.pfx b.pfx = true ∨ (a.pfx = b.pfx ∧ b.handlerId < a.handlerId)

instance : ∀ a b, Decidable (tableOrd a b) := fun _ _ => by
  unfold tableOrd; infer_instance

theorem insertRoute_spec (t : List RegexpHandler) (rh : RegexpHandler)
    (ht : List.Pairwise tableOrd t)
    (hid : ∀ r ∈ t, r.handlerId < rh.handlerId) :
    List.Pairwise tableOrd (insertRoute t rh) ∧
      (insertRoute t rh).Perm (rh :: t) := by
  have hmono : ∀ k, k + 1 < t.length →
      (!strLt (t.getD k default).pfx rh.pfx) = true →
      (!strLt (t.getD (k + 1) default).pfx rh.pfx) = true := by
    intro k hk1 hfk
    simp only [Bool.not_eq_true'] at hfk ⊢
    have hk : k < t.length := by omega
    have hrel : tableOrd t[k] t[k + 1] :=
      List.pairwise_iff_getElem.mp ht k (k + 1) hk hk1 (by omega)
    rw [List.getD_eq_getElem t default hk] at hfk
    rw [List.getD_eq_getElem t default hk1]
    rcases Bool.eq_false_or_eq_true (strLt t[k + 1].pfx rh.pfx) with h | h
    · rcases hrel with hlt | ⟨heq, _⟩
      · exact absurd (strLt_trans hlt h) (by simp [hfk])
      · rw [heq] at hfk
        exact absurd h (by simp [hfk])
    · exact h
  obtain ⟨hlow, hhigh, hlen⟩ := goSortSearch_spec hmono
  set i0 := goSortSearch t.length
    (fun k => !strLt (t.getD k default).pfx rh.pfx) with hi0
  have hlow' : ∀ k, (h : k < i0) → strLt (t.getD k default).pfx rh.pfx = true := by
    intro k hk
    have := hlow k hk
    simpa using this
  have hhigh' : ∀ k, i0 ≤ k → (h : k < t.length) →
      strLt (t.getD k default).pfx rh.pfx = false := by
    intro k hk hkn
    have := hhigh k hk hkn
    simpa using this
  constructor
  · show List.Pairwise tableOrd (t.take i0 ++ rh :: t.drop i0)
    rw [List.pairwise_append]
    refine ⟨ht.sublist (List.take_sublist i0 t), ?_, ?_⟩
    · rw [List.pairwise_cons]
      refine ⟨?_, ht.sublist (List.drop_sublist i0 t)⟩
      intro b hb
      obtain ⟨k, hk, hbk⟩ := List.getElem_of_mem hb
      rw [List.getElem_drop] at hbk
      have hklen : i0 + k < t.length := by
        have := hk
        simp only [List.length_drop] at this
        omega
      have hfk := hhigh' (i0 + k) (by omega) hklen
      rw [List.getD_eq_getElem t default hklen, hbk] at hfk
      rcases Bool.eq_false_or_eq_true (strLt rh.pfx b.pfx) with h | h
      · exact Or.inl h
      · right
        refine ⟨strLt_total_eq h hfk, ?_⟩
        exact hid b (by rw [← hbk]; exact List.getElem_mem hklen)
    · intro a ha b hb
      obtain ⟨k, hk, hak⟩ := List.getElem_of_mem ha
      rw [List.getElem_take] at hak
      have hki : k < i0 := by
        have := hk
        simp only [List.length_take] at this
        omega
      have hklen : k < t.length := by
        have := hk
        simp only [List.length_take] at this
        omega
      rcases List.mem_cons.mp hb with hbrh | hbdrop
      · subst hbrh
        left
        have := hlow' k hki
        rw [List.getD_eq_getElem t default hklen, hak] at this
        exact this
      · obtain ⟨k', hk', hbk'⟩ := List.getElem_of_mem hbdrop
        rw [List.getElem_drop] at hbk'
        have hk'len : i0 + k' < t.length := by
          have := hk'
          simp only [List.length_drop] at this
          omega
        have : tableOrd t[k] t[i0 + k'] :=
          List.pairwise_iff_getElem.mp ht k (i0 + k') hklen hk'len (by omega)
        rw [hak, hbk'] at this
        exact this
  · show (t.take i0 ++ rh :: t.drop i0).Perm (rh :: t)
    have := @List.perm_middle _ rh (t.take i0) (t.drop i0)
    calc (t.take i0 ++ rh :: t.drop i0).Perm (rh :: (t.take i0 ++ t.drop i0)) := this
      _ = (rh :: t) := by rw [List.take_append_drop]

/-- Route value a registration sequence inserts: the registration ordinal
is kept as `handlerId` (only `pfx` matters to the insertion). -/
def mkTableRoute (kp : Nat × Str) : RegexpHandler :=
  { handlerId := kp.1, pfx := kp.2, regexStr := [], matcher := fun _ => none,
    paramsType := none, paramsIndex := [] }

/-- Route table after registering the given prefixes in order, by the
insertion step of `Handle` (rhttp.go). -/
def registerAll (ps : List Str) : List RegexpHandler :=
  ((ps.enum).map mkTableRoute).foldl insertRoute []

theorem foldl_insert_inv :
    ∀ (xs acc : List RegexpHandler),
      List.Pairwise tableOrd acc →
      (∀ r ∈ acc, ∀ x ∈ xs, r.handlerId < x.handlerId) →
      List.Pairwise (fun a b => a.handlerId < b.handlerId) xs →
      List.Pairwise tableOrd (xs.foldl insertRoute acc) ∧
        (xs.foldl insertRoute acc).Perm (xs ++ acc) := by
  intro xs
  induction xs with
  | nil =>
    intro acc hacc _ _
    exact ⟨hacc, by simp⟩
  | cons x rest ih =>
    intro acc hacc hlt hxs
    have hstep := insertRoute_spec acc x hacc
      (fun r hr => hlt r hr x (List.mem_cons_self x rest))
    rw [List.pairwise_cons] at hxs
    have hmem : ∀ r ∈ insertRoute acc x, ∀ y ∈ rest, r.handlerId < y.handlerId := by
      intro r hr y hy
      rcases List.mem_cons.mp (hstep.2.mem_iff.mp hr) with hrx | hracc
      · subst hrx
        exact hxs.1 y hy
      · exact hlt r hracc y (List.mem_cons_of_mem x hy)
    have := ih (insertRoute acc x) hstep.1 hmem hxs.2
    refine ⟨this.1, ?_⟩
    calc (rest.foldl insertRoute (insertRoute acc x)).Perm
          (rest ++ insertRoute acc x) := this.2
      _ |>.Perm (rest ++ x :: acc) := List.Perm.append_left rest hstep.2
      _ |>.Perm (x :: rest ++ acc) := List.perm_middle

theorem mem_enumFrom_fst_ge {α : Type} :
    ∀ (l : List α) (n : Nat) (p : Nat × α), p ∈ List.enumFrom n l → n ≤ p.1 := by
  intro l
  induction l with
  | nil => intro n p hp; simp [List.enumFrom] at hp
  | cons x xs ih =>
    intro n p hp
    rcases List.mem_cons.mp hp with h | h
    · subst h; exact le_refl n
    · exact le_trans (Nat.le_succ n) (ih (n + 1) p h)

theorem pairwise_enumFrom {α : Type} :
    ∀ (l : List α) (n : Nat),
      List.Pairwise (fun a b => a.1 < b.1) (List.enumFrom n l) := by
  intro l
  induction l with
  | nil => intro n; simp [List.enumFrom]
  | cons x xs ih =>
    intro n
    rw [List.enumFrom, List.pairwise_cons]
    exact ⟨fun p hp => lt_of_lt_of_le (Nat.lt_succ_self n) (mem_enumFrom_fst_ge xs (n + 1) p hp), ih (n + 1)⟩

/-- C4: after every sequence of registrations, the route table is pairwise
ordered with ascending prefixes; among equal prefixes the registration
ordinal strictly decreases with increasing index, so the most recently
registered route of a run occupies the lowest index and the earliest the
highest; and the table holds exactly the registered routes. -/
theorem c4_table_invariant (ps : List Str) :
    List.Pairwise tableOrd (registerAll ps) ∧
      (registerAll ps).Perm ((ps.enum).map mkTableRoute) := by
  have hids : List.Pairwise (fun a b => a.handlerId < b.handlerId)
      ((ps.enum).map mkTableRoute) := by
    refine List.Pairwise.map mkTableRoute ?_ (pairwise_enumFrom ps 0)
    intro a b hab
    exact hab
  have := foldl_insert_inv ((ps.enum).map mkTableRoute) []
    (List.Pairwise.nil) (by intro r hr; simp at hr) hids
  exact ⟨this.1, this.2.trans (by simp)⟩

/-! ### Claim C1, amended -/

/-- Candidate indices the dispatcher visits: scanning backward from the
binary-search boundary, the contiguous run of indices whose route prefix
is a literal leading substring of the path. -/
def candidateRun (routes : List RegexpHandler) (path : Str) : List Nat :=
  ((List.range (dispBoundary routes path)).reverse).takeWhile
    (fun k => hasPfx (routes.getD k default).pfx path)

/-- First acceptable route over a candidate index list. -/
def firstHit (routes : List RegexpHandler) (path : Str) : List Nat → DispatchResult
  | [] => .NotFound
  | k :: rest =>
    match tryRoute (routes.getD k default) path with
    | some r => r
    | none => firstHit routes path rest

theorem scanFrom_eq_firstHit (routes : List RegexpHandler) (path : Str) :
    ∀ b, scanFrom routes path b =
      firstHit routes path
        (((List.range b).reverse).takeWhile
          (fun k => hasPfx (routes.getD k default).pfx path)) := by
  intro b
  induction b with
  | zero => rfl
  | succ b ih =>
    rw [List.range_succ, List.reverse_append]
    simp only [List.reverse_cons, List.reverse_nil, List.nil_append, List.cons_append,
      List.takeWhile_cons]
    by_cases hp : hasPfx (routes.getD b default).pfx path = true
    · simp only [hp, if_true]
      show scanFrom routes path (b + 1) = _
      simp only [scanFrom, hp, if_true, firstHit]
      rw [ih]
    · simp only [hp]
      show scanFrom routes path (b + 1) = _
      simp only [scanFrom, hp, if_false]
      simp [Bool.not_eq_true] at hp
      simp [hp, firstHit]

theorem searchLoop_bounds :
    ∀ (fuel : Nat) (f : Nat → Bool) (i j : Nat), i ≤ j →
      i ≤ searchLoop fuel f i j ∧ searchLoop fuel f i j ≤ j := by
  intro fuel
  induction fuel with
  | zero => intro f i j hij; exact ⟨le_refl i, hij⟩
  | succ fuel ih =>
    intro f i j hij
    by_cases hlt : i < j
    · simp only [searchLoop, if_pos hlt]
      by_cases hfm : f ((i + j) / 2) = true
      · simp only [if_pos hfm]
        have := ih f i ((i + j) / 2) (by omega)
        exact ⟨this.1, by omega⟩
      · simp only [if_neg hfm]
        have := ih f ((i + j) / 2 + 1) j (by omega)
        exact ⟨by omega, this.2⟩
    · simp only [searchLoop, if_neg hlt]
      exact ⟨le_refl i, hij⟩

theorem hasPfx_refl : ∀ (p : Str), hasPfx p p = true := by
  intro p
  induction p with
  | nil => rfl
  | cons c rest ih => simp [hasPfx, ih]

theorem strLt_asymm : ∀ {a b : Str}, strLt a b = true → strLt b a = true → False := by
  intro a b hab hba
  have := strLt_trans hab hba
  rw [strLt_irrefl] at this
  exact Bool.false_ne_true this

/-- C1, amended: dispatch equals the first acceptable candidate of the
contiguous prefix-matching run below the search boundary (first
conjunct); every candidate's prefix leads the path (second conjunct); and
the run — visited in decreasing index order — goes from the longest
matching prefix toward shorter ones, earliest-registered first within an
identical prefix: for candidate indices `j < k`, the prefix at `j` leads
the prefix at `k` (so the later-visited `j` is no longer), and when the
prefixes coincide the registration ordinal at `k` (visited first) is
smaller, i.e. earlier (third conjunct).  `NotFound` is reported exactly
when every candidate of that run is rejected — but, as the counterexample
shows, routes below a prefix gap are never evaluated. -/
theorem c1_amended (routes : List RegexpHandler) (path : Str)
    (hinv : List.Pairwise tableOrd routes) :
    dispatch routes path = firstHit routes path (candidateRun routes path) ∧
    (∀ k ∈ candidateRun routes path,
      hasPfx (routes.getD k default).pfx path = true) ∧
    (∀ j k, j ∈ candidateRun routes path → k ∈ candidateRun routes path → j < k →
      hasPfx (routes.getD j default).pfx (routes.getD k default).pfx = true ∧
      ((routes.getD j default).pfx = (routes.getD k default).pfx →
        (routes.getD k default).handlerId < (routes.getD j default).handlerId)) := by
  have hpfx : ∀ x ∈ candidateRun routes path,
      hasPfx (routes.getD x default).pfx path = true := by
    intro x hx
    unfold candidateRun at hx
    have h2 := List.mem_takeWhile_imp hx
    simpa using h2
  have hmemrange : ∀ x ∈ candidateRun routes path, x < routes.length := by
    intro x hx
    unfold candidateRun at hx
    have hx' : x ∈ (List.range (dispBoundary routes path)).reverse :=
      List.Sublist.subset (List.takeWhile_sublist _) hx
    rw [List.mem_reverse, List.mem_range] at hx'
    have hb : dispBoundary routes path ≤ routes.length :=
      (searchLoop_bounds routes.length _ 0 routes.length (Nat.zero_le _)).2
    omega
  refine ⟨scanFrom_eq_firstHit routes path _, hpfx, ?_⟩
  · intro j k hj hk hjk
    have hjlen := hmemrange j hj
    have hklen := hmemrange k hk
    have hpj : hasPfx (routes.getD j default).pfx path = true := hpfx j hj
    have hpk : hasPfx (routes.getD k default).pfx path = true := hpfx k hk
    have hord : tableOrd routes[j] routes[k] :=
      List.pairwise_iff_getElem.mp hinv j k hjlen hklen hjk
    rw [← List.getD_eq_getElem routes default hjlen,
        ← List.getD_eq_getElem routes default hklen] at hord
    rcases hord with hlt | ⟨heq, hid⟩
    · have hlen : (routes.getD j default).pfx.length ≤ (routes.getD k default).pfx.length := by
        by_contra hgt
        push_neg at hgt
        have hkj : hasPfx (routes.getD k default).pfx (routes.getD j default).pfx = true :=
          hasPfx_of_both hpk hpj (le_of_lt hgt)
        have hne : (routes.getD k default).pfx ≠ (routes.getD j default).pfx := by
          intro h
          rw [h] at hgt
          exact lt_irrefl _ hgt
        exact strLt_asymm hlt (strLt_of_hasPfx_ne hkj hne)
      refine ⟨hasPfx_of_both hpj hpk hlen, ?_⟩
      intro heq
      rw [heq, strLt_irrefl] at hlt
      exact absurd hlt (by simp)
    · rw [heq]
      exact ⟨hasPfx_refl _, fun _ => hid⟩

/-- Table of the C1 counterexample as a plain list. -/
def tableC1v : List RegexpHandler := tableC1.getD []

/-- Witness for the amended C1 on the concrete three-route table of the
counterexample: its candidate run on `/a/x` is `[2]` and dispatch agrees
with the first hit over it. -/
theorem c1_amended_witness :
    dispatch tableC1v (strL "/a/x") =
      firstHit tableC1v (strL "/a/x") (candidateRun tableC1v (strL "/a/x")) ∧
    candidateRun tableC1v (strL "/a/x") = [2] :=
  ⟨(c1_amended tableC1v (strL "/a/x") (by decide)).1, by decide⟩

/-! ### Pattern segments

A pattern that `compilePattern` accepts decomposes into literal spans,
anonymous groups `(g)` and named groups `(u=v)`: a group closes exactly at
the `)` matching its opening `(`; a named group's name is read at the
first `=` anywhere inside the group (`c7_counterexample`); anonymous
groups contain no `=` at all, since the separator test ignores the
nesting depth.  The lemmas below walk `compileLoop` one segment at a
time. -/

inductive Seg
  | lit (s : Str)
  | anon (g : Str)
  | named (u v : Str)

/-- Pattern text of one segment. -/
def segStr : Seg → Str
  | .lit s => s
  | .anon g => '(' :: g ++ [')']
  | .named u v => '(' :: u ++ '=' :: v ++ [')']

/-- Pattern text of a segment list. -/
def patOfSegs (segs : List Seg) : Str := (segs.map segStr).flatten

/-- Literal span without escapes or parentheses. -/
def cleanLit (s : Str) : Bool := s.all (fun c => c ≠ '(' && c ≠ ')' && c ≠ '\\')

/-- Name part of a group: no parentheses, no `=`. -/
def cleanName (s : Str) : Bool := s.all (fun c => c ≠ '(' && c ≠ ')' && c ≠ '=')

/-- Inner-regex shape: scanning from parenthesis depth `d ≥ 1`, the depth
never returns to 0 (the group does not close early) and is 1 at the end
(the next `)` closes the group). -/
def innerOKAux : Str → Nat → Bool
  | [], d => d = 1
  | c :: r, d =>
    if c = '(' then innerOKAux r (d + 1)
    else if c = ')' then decide (2 ≤ d) && innerOKAux r (d - 1)
    else innerOKAux r d

/-- Inner-regex shape from the group's own depth 1. -/
def innerOK (g : Str) : Bool := innerOKAux g 1

/-- Well-formedness of one segment with respect to a name scope. -/
def segOK (n2f : List (Str × Nat)) : Seg → Bool
  | .lit s => cleanLit s
  | .anon g => !g.contains '=' && innerOK g
  | .named u v =>
    cleanName u && allowedName u && (mapFind n2f u).isSome && innerOK v

/-- Well-formedness of a segment list. -/
def segsOK (n2f : List (Str × Nat)) (segs : List Seg) : Bool :=
  segs.all (segOK n2f)

/-- Schema slots of the named groups, in pattern order. -/
def namedSlots (n2f : List (Str × Nat)) : List Seg → List Nat
  | [] => []
  | .named u _ :: rest => mapFindD n2f u 0 :: namedSlots n2f rest
  | _ :: rest => namedSlots n2f rest

/-- Group-to-slot map obtained by numbering the given slots consecutively
from `k` on top of `m` (the running-ordinal bookkeeping of
`compilePattern`). -/
def buildIdxFrom (m : List (Nat × Nat)) (k : Nat) : List Nat → List (Nat × Nat)
  | [] => m
  | s :: rest => buildIdxFrom (mapInsert m s k) (k + 1) rest

theorem compileLoop_lit (p : Str) (n2f : List (Str × Nat)) :
    ∀ (s tail : Str) (i : Nat) (st : CompState),
      cleanLit s = true → st.escape = false → st.parens = 0 →
      compileLoop p n2f i (s ++ tail) st =
        compileLoop p n2f (i + s.length) tail st := by
  intro s
  induction s with
  | nil => intro tail i st _ _ _; rfl
  | cons c cs ih =>
    intro tail i st hcl hesc hpar
    simp only [cleanLit, List.all_cons, Bool.and_eq_true, decide_eq_true_eq] at hcl
    obtain ⟨⟨⟨h2, h3⟩, h1⟩, hcl2⟩ := hcl
    have hcl' : cleanLit cs = true := hcl2
    show compileLoop p n2f i (c :: (cs ++ tail)) st = _
    simp only [compileLoop, hesc, hpar, if_false, if_true, h1, h2, h3, ite_false,
      Bool.false_eq_true, reduceIte]
    rw [ih tail (i + 1) st hcl' hesc hpar]
    congr 1
    simp [List.length_cons]
    omega

theorem compileLoop_namepart (p : Str) (n2f : List (Str × Nat)) :
    ∀ (u tail : Str) (i : Nat) (st : CompState),
      cleanName u = true → st.escape = false → 1 ≤ st.parens →
      compileLoop p n2f i (u ++ tail) st =
        compileLoop p n2f (i + u.length) tail st := by
  intro u
  induction u with
  | nil => intro tail i st _ _ _; rfl
  | cons c cs ih =>
    intro tail i st hcl hesc hpar
    simp only [cleanName, List.all_cons, Bool.and_eq_true, decide_eq_true_eq] at hcl
    obtain ⟨⟨⟨h2, h3⟩, h1⟩, hcl2⟩ := hcl
    have hcl' : cleanName cs = true := hcl2
    have hp0 : ¬ (st.parens = 0) := by omega
    show compileLoop p n2f i (c :: (cs ++ tail)) st = _
    simp only [compileLoop, hesc, hp0, if_false, Bool.false_eq_true, reduceIte, h2, h3,
      ite_false]
    have hcond : (c = '=' && decide (st.equals = st.groupBegin)) ≠ true := by
      simp [h1]
    simp only [hcond, Bool.false_eq_true, reduceIte, if_neg hcond]
    rw [ih tail (i + 1) st hcl' hesc hpar]
    congr 1
    simp [List.length_cons]
    omega

theorem compileLoop_inner (p : Str) (n2f : List (Str × Nat)) :
    ∀ (g tail : Str) (i : Nat) (st : CompState),
      st.escape = false → 1 ≤ st.parens → innerOKAux g st.parens = true →
      (st.equals ≠ st.groupBegin ∨ g.contains '=' = false) →
      compileLoop p n2f i (g ++ tail) st =
        compileLoop p n2f (i + g.length) tail { st with parens := 1 } := by
  intro g
  induction g with
  | nil =>
    intro tail i st hesc hpar hok _
    simp only [innerOKAux, decide_eq_true_eq] at hok
    have : ({ st with parens := 1 } : CompState) = st := by
      cases st
      simp_all
    rw [this]
    rfl
  | cons c cs ih =>
    intro tail i st hesc hpar hok heq
    obtain ⟨er, pv, pix, pc, gb, ge, eqv, par, rs, esc⟩ := st
    replace hesc : esc = false := hesc
    subst hesc
    replace hpar : 1 ≤ par := hpar
    replace hok : innerOKAux (c :: cs) par = true := hok
    replace heq : eqv ≠ gb ∨ (c :: cs).contains '=' = false := heq
    have hp0 : ¬ (par = 0) := by omega
    have heq' : eqv ≠ gb ∨ cs.contains '=' = false := by
      rcases heq with h | h
      · exact Or.inl h
      · right
        simp only [List.contains_cons, Bool.or_eq_false_iff] at h
        exact h.2
    rw [show i + (c :: cs).length = (i + 1) + cs.length from by
      simp only [List.length_cons]; omega]
    show compileLoop p n2f i (c :: (cs ++ tail)) _ = _
    by_cases hco : c = '('
    · subst hco
      simp only [compileLoop, Bool.false_eq_true, reduceIte, hp0, ite_false, if_true]
      have hok' : innerOKAux cs (par + 1) = true := by
        simpa [innerOKAux] using hok
      exact ih tail (i + 1) ⟨er, pv, pix, pc, gb, ge, eqv, par + 1, rs, false⟩ rfl
        (show 1 ≤ par + 1 by omega) hok' heq'
    · by_cases hcc : c = ')'
      · subst hcc
        simp [innerOKAux] at hok
        have hd2 : 2 ≤ par := hok.1
        have hok' : innerOKAux cs (par - 1) = true := hok.2
        have hne : ¬ (par - 1 = 0) := by omega
        simp only [compileLoop, Bool.false_eq_true, reduceIte, hp0, ite_false, if_true, hne]
        exact ih tail (i + 1) ⟨er, pv, pix, pc, gb, ge, eqv, par - 1, rs, false⟩ rfl
          (show 1 ≤ par - 1 by omega) hok' heq'
      · have hok' : innerOKAux cs par = true := by
          simpa [innerOKAux, hco, hcc] using hok
        by_cases hce : c = '='
        · subst hce
          have heqv : eqv ≠ gb := by
            rcases heq with h | h
            · exact h
            · simp [List.contains_cons] at h
          rw [show compileLoop p n2f i ('=' :: (cs ++ tail))
                ⟨er, pv, pix, pc, gb, ge, eqv, par, rs, false⟩ =
              compileLoop p n2f (i + 1) (cs ++ tail)
                ⟨er, pv, pix, pc, gb, ge, eqv, par, rs, false⟩ from by
            simp [compileLoop, hp0, heqv]]
          exact ih tail (i + 1) ⟨er, pv, pix, pc, gb, ge, eqv, par, rs, false⟩ rfl
            hpar hok' heq'
        · rw [show compileLoop p n2f i (c :: (cs ++ tail))
                ⟨er, pv, pix, pc, gb, ge, eqv, par, rs, false⟩ =
              compileLoop p n2f (i + 1) (cs ++ tail)
                ⟨er, pv, pix, pc, gb, ge, eqv, par, rs, false⟩ from by
            simp [compileLoop, hp0, hco, hcc, hce]]
          exact ih tail (i + 1) ⟨er, pv, pix, pc, gb, ge, eqv, par, rs, false⟩ rfl
            hpar hok' heq'

theorem goSlice_of_drop {p : Str} {i : Nat} {pre post : Str}
    (h : p.drop i = pre ++ post) : goSlice p i (i + pre.length) = pre := by
  unfold goSlice
  rw [show i + pre.length - i = pre.length from by omega, h, List.take_left]

theorem drop_add_of_drop {p : Str} {i : Nat} {x : Str}
    (h : p.drop i = x) (n : Nat) : p.drop (i + n) = x.drop n := by
  rw [← h, List.drop_drop]

theorem compileLoop_named (p : Str) (n2f : List (Str × Nat)) (u v tail : Str)
    (i : Nat) (st : CompState)
    (hesc : st.escape = false) (hpar : st.parens = 0) (herr : st.err = none)
    (hdrop : p.drop i = '(' :: (u ++ '=' :: v ++ [')']) ++ tail)
    (hu1 : cleanName u = true) (hu2 : allowedName u = true)
    (hu3 : (mapFind n2f u).isSome = true) (hv : innerOK v = true) :
    compileLoop p n2f i ('(' :: (u ++ '=' :: v ++ [')']) ++ tail) st =
      compileLoop p n2f (i + (u.length + v.length + 3)) tail
        { err := none,
          prefixV := if st.groupBegin = 0
            then removeEscapes (goSlice p st.groupEnd i) else st.prefixV,
          paramsIndex := mapInsert st.paramsIndex (mapFindD n2f u 0) st.paramIndex,
          paramIndex := st.paramIndex + 1,
          groupBegin := i,
          groupEnd := i + (u.length + v.length + 3),
          equals := i + 1 + u.length,
          parens := 0,
          regexpString := st.regexpString ++
            quoteMeta (removeEscapes (goSlice p st.groupEnd i)) ++ ['('] ++
            (v ++ [')']),
          escape := false } := by
  obtain ⟨er, pv, pix, pc, gb, ge, eqv, par, rs, esc⟩ := st
  replace hesc : esc = false := hesc
  subst hesc
  replace hpar : par = 0 := hpar
  subst hpar
  replace herr : er = none := herr
  subst herr
  replace hdrop : p.drop i = '(' :: (u ++ '=' :: v ++ [')']) ++ tail := hdrop
  have hne : u ≠ [] := by
    intro h
    subst h
    simp [allowedName] at hu2
  obtain ⟨w, hw⟩ := Option.isSome_iff_exists.mp hu3
  -- positions of the name and of the inner regular expression inside p
  have hd1 : p.drop (i + 1) = u ++ ('=' :: ((v ++ [')']) ++ tail)) := by
    have := drop_add_of_drop hdrop 1
    simpa [List.append_assoc] using this
  have hsl1 : goSlice p (i + 1) (i + 1 + u.length) = u := goSlice_of_drop hd1
  have hd2 : p.drop (i + 1 + u.length) = '=' :: ((v ++ [')']) ++ tail) := by
    have := drop_add_of_drop hd1 u.length
    simpa [List.drop_left] using this
  have hd3 : p.drop (i + 1 + u.length + 1) = (v ++ [')']) ++ tail := by
    have := drop_add_of_drop hd2 1
    simpa using this
  have hsl2 : goSlice p (i + 1 + u.length + 1) (i + 1 + u.length + 1 + (v.length + 1)) =
      v ++ [')'] := by
    have h2 : p.drop (i + 1 + u.length + 1) = (v ++ [')']) ++ tail := hd3
    have := goSlice_of_drop h2
    simpa [List.length_append] using this
  rw [show i + (u.length + v.length + 3) = i + 1 + u.length + 1 + v.length + 1 from by
    omega]
  -- the opening parenthesis at position i
  show compileLoop p n2f i ('(' :: ((u ++ '=' :: v ++ [')']) ++ tail)) _ = _
  rw [show compileLoop p n2f i ('(' :: ((u ++ '=' :: v ++ [')']) ++ tail))
        ⟨none, pv, pix, pc, gb, ge, eqv, 0, rs, false⟩ =
      compileLoop p n2f (i + 1) ((u ++ '=' :: v ++ [')']) ++ tail)
        ⟨none, if gb = 0 then removeEscapes (goSlice p ge i) else pv, pix, pc, i, ge, i, 1,
          rs ++ quoteMeta (removeEscapes (goSlice p ge i)) ++ ['('], false⟩ from by
    simp [compileLoop]]
  -- the name u
  simp only [List.append_assoc, List.cons_append, List.singleton_append, List.nil_append]
  rw [compileLoop_namepart p n2f u ('=' :: (v ++ ')' :: tail)) (i + 1) _ hu1 rfl
    (by show 1 ≤ 1; omega)]
  -- the separator = at position i + 1 + u.length
  rw [show compileLoop p n2f (i + 1 + u.length) ('=' :: (v ++ ')' :: tail))
        ⟨none, if gb = 0 then removeEscapes (goSlice p ge i) else pv, pix, pc, i, ge, i, 1,
          rs ++ (quoteMeta (removeEscapes (goSlice p ge i)) ++ ['(']), false⟩ =
      compileLoop p n2f (i + 1 + u.length + 1) (v ++ ')' :: tail)
        ⟨none, if gb = 0 then removeEscapes (goSlice p ge i) else pv,
          mapInsert pix (mapFindD n2f u 0) pc, pc + 1, i, ge, i + 1 + u.length, 1,
          rs ++ (quoteMeta (removeEscapes (goSlice p ge i)) ++ ['(']), false⟩ from by
    simp [compileLoop, hsl1, hne, hu2, hw]]
  -- the inner regular expression v
  rw [compileLoop_inner p n2f v (')' :: tail) (i + 1 + u.length + 1) _ rfl
    (by show 1 ≤ 1; omega) (by simpa [innerOK] using hv)
    (Or.inl (by show i + 1 + u.length ≠ i; omega))]
  -- the closing parenthesis
  rw [show compileLoop p n2f (i + 1 + u.length + 1 + v.length) (')' :: tail)
        ⟨none, if gb = 0 then removeEscapes (goSlice p ge i) else pv,
          mapInsert pix (mapFindD n2f u 0) pc, pc + 1, i, ge, i + 1 + u.length, 1,
          rs ++ (quoteMeta (removeEscapes (goSlice p ge i)) ++ ['(']), false⟩ =
      compileLoop p n2f (i + 1 + u.length + 1 + v.length + 1) tail
        ⟨none, if gb = 0 then removeEscapes (goSlice p ge i) else pv,
          mapInsert pix (mapFindD n2f u 0) pc, pc + 1, i,
          i + 1 + u.length + 1 + v.length + 1, i + 1 + u.length, 0,
          rs ++ (quoteMeta (removeEscapes (goSlice p ge i)) ++ ['(']) ++ (v ++ [')']),
          false⟩ from by
    have hix : i + 1 + u.length + 1 + (v.length + 1) = i + 1 + u.length + 1 + v.length + 1 := by
      omega
    rw [hix] at hsl2
    simp [compileLoop, hsl2]]
  simp [List.append_assoc]

theorem compileLoop_anon (p : Str) (n2f : List (Str × Nat)) (g tail : Str)
    (i : Nat) (st : CompState)
    (hesc : st.escape = false) (hpar : st.parens = 0) (herr : st.err = none)
    (hdrop : p.drop i = '(' :: (g ++ [')']) ++ tail)
    (hg1 : g.contains '=' = false) (hg2 : innerOK g = true) :
    compileLoop p n2f i ('(' :: (g ++ [')']) ++ tail) st =
      compileLoop p n2f (i + (g.length + 2)) tail
        { err := none,
          prefixV := if st.groupBegin = 0
            then removeEscapes (goSlice p st.groupEnd i) else st.prefixV,
          paramsIndex := st.paramsIndex,
          paramIndex := st.paramIndex,
          groupBegin := i,
          groupEnd := i + (g.length + 2),
          equals := i,
          parens := 0,
          regexpString := st.regexpString ++
            quoteMeta (removeEscapes (goSlice p st.groupEnd i)) ++ ['('] ++
            (g ++ [')']),
          escape := false } := by
  obtain ⟨er, pv, pix, pc, gb, ge, eqv, par, rs, esc⟩ := st
  replace hesc : esc = false := hesc
  subst hesc
  replace hpar : par = 0 := hpar
  subst hpar
  replace herr : er = none := herr
  subst herr
  replace hdrop : p.drop i = '(' :: (g ++ [')']) ++ tail := hdrop
  have hd1 : p.drop (i + 1) = (g ++ [')']) ++ tail := by
    have := drop_add_of_drop hdrop 1
    simpa using this
  have hsl : goSlice p (i + 1) (i + 1 + (g.length + 1)) = g ++ [')'] := by
    have := goSlice_of_drop hd1
    simpa [List.length_append] using this
  rw [show i + (g.length + 2) = i + 1 + g.length + 1 from by omega]
  show compileLoop p n2f i ('(' :: ((g ++ [')']) ++ tail)) _ = _
  rw [show compileLoop p n2f i ('(' :: ((g ++ [')']) ++ tail))
        ⟨none, pv, pix, pc, gb, ge, eqv, 0, rs, false⟩ =
      compileLoop p n2f (i + 1) ((g ++ [')']) ++ tail)
        ⟨none, if gb = 0 then removeEscapes (goSlice p ge i) else pv, pix, pc, i, ge, i, 1,
          rs ++ (quoteMeta (removeEscapes (goSlice p ge i)) ++ ['(']), false⟩ from by
    simp [compileLoop]]
  simp only [List.append_assoc, List.cons_append, List.singleton_append, List.nil_append]
  rw [compileLoop_inner p n2f g (')' :: tail) (i + 1) _ rfl (by show 1 ≤ 1; omega)
    (by simpa [innerOK] using hg2) (Or.inr hg1)]
  rw [show compileLoop p n2f (i + 1 + g.length) (')' :: tail)
        ⟨none, if gb = 0 then removeEscapes (goSlice p ge i) else pv, pix, pc, i, ge, i, 1,
          rs ++ (quoteMeta (removeEscapes (goSlice p ge i)) ++ ['(']), false⟩ =
      compileLoop p n2f (i + 1 + g.length + 1) tail
        ⟨none, if gb = 0 then removeEscapes (goSlice p ge i) else pv, pix, pc, i,
          i + 1 + g.length + 1, i, 0,
          rs ++ (quoteMeta (removeEscapes (goSlice p ge i)) ++ ['(']) ++ (g ++ [')']),
          false⟩ from by
    have hix : i + 1 + (g.length + 1) = i + 1 + g.length + 1 := by omega
    rw [hix] at hsl
    simp [compileLoop, hsl]]
  simp [List.append_assoc]

theorem compileLoop_segs :
    ∀ (segs : List Seg) (p : Str) (n2f : List (Str × Nat)) (i : Nat) (st : CompState),
      segsOK n2f segs = true →
      p.drop i = patOfSegs segs →
      st.escape = false → st.parens = 0 → st.err = none →
      ∃ st', compileLoop p n2f i (patOfSegs segs) st = .ok st' ∧
        st'.parens = 0 ∧
        st'.paramsIndex = buildIdxFrom st.paramsIndex st.paramIndex (namedSlots n2f segs) ∧
        st'.paramIndex = st.paramIndex + (namedSlots n2f segs).length := by
  intro segs
  induction segs with
  | nil =>
    intro p n2f i st _ _ hesc hpar herr
    refine ⟨st, rfl, hpar, rfl, by simp [namedSlots, buildIdxFrom]⟩
  | cons s rest ih =>
    intro p n2f i st hok hdrop hesc hpar herr
    simp only [segsOK, List.all_cons, Bool.and_eq_true] at hok
    obtain ⟨hok1, hok2⟩ := hok
    have hflat : patOfSegs (s :: rest) = segStr s ++ patOfSegs rest := by
      simp [patOfSegs]
    cases s with
    | lit l =>
      have hlit : cleanLit l = true := hok1
      rw [hflat]
      rw [show segStr (Seg.lit l) = l from rfl]
      rw [compileLoop_lit p n2f l (patOfSegs rest) i st hlit hesc hpar]
      have hdrop' : p.drop (i + l.length) = patOfSegs rest := by
        have h0 : p.drop i = l ++ patOfSegs rest := by
          rw [hdrop, hflat]; rfl
        have := drop_add_of_drop h0 l.length
        simpa [List.drop_left] using this
      have := ih p n2f (i + l.length) st hok2 hdrop' hesc hpar herr
      simpa [namedSlots] using this
    | anon g =>
      simp only [segOK, Bool.and_eq_true, Bool.not_eq_true'] at hok1
      obtain ⟨hg1, hg2⟩ := hok1
      have hdrop0 : p.drop i = '(' :: (g ++ [')']) ++ patOfSegs rest := by
        rw [hdrop, hflat]; rfl
      rw [hflat, show segStr (Seg.anon g) = '(' :: (g ++ [')']) from rfl]
      rw [show ('(' :: (g ++ [')'])) ++ patOfSegs rest =
        '(' :: (g ++ [')']) ++ patOfSegs rest from rfl]
      rw [compileLoop_anon p n2f g (patOfSegs rest) i st hesc hpar herr hdrop0 hg1 hg2]
      have hdrop' : p.drop (i + (g.length + 2)) = patOfSegs rest := by
        have := drop_add_of_drop hdrop0 (g.length + 2)
        rw [show ('(' :: (g ++ [')']) ++ patOfSegs rest).drop (g.length + 2) =
            patOfSegs rest from by
          rw [show ('(' :: (g ++ [')']) ++ patOfSegs rest : Str) =
              ('(' :: (g ++ [')'])) ++ patOfSegs rest from rfl]
          rw [show g.length + 2 = ('(' :: (g ++ [')']) : Str).length from by
            simp [List.length_append]]
          exact List.drop_left _ _] at this
        exact this
      have := ih p n2f (i + (g.length + 2))
        { err := none,
          prefixV := if st.groupBegin = 0
            then removeEscapes (goSlice p st.groupEnd i) else st.prefixV,
          paramsIndex := st.paramsIndex,
          paramIndex := st.paramIndex,
          groupBegin := i,
          groupEnd := i + (g.length + 2),
          equals := i,
          parens := 0,
          regexpString := st.regexpString ++
            quoteMeta (removeEscapes (goSlice p st.groupEnd i)) ++ ['('] ++
            (g ++ [')']),
          escape := false } hok2 hdrop' rfl rfl rfl
      simpa [namedSlots] using this
    | named u v =>
      simp only [segOK, Bool.and_eq_true] at hok1
      obtain ⟨⟨⟨hu1, hu2⟩, hu3⟩, hv⟩ := hok1
      have hdrop0 : p.drop i = '(' :: (u ++ '=' :: v ++ [')']) ++ patOfSegs rest := by
        rw [hdrop, hflat]; rfl
      rw [hflat, show segStr (Seg.named u v) = '(' :: (u ++ '=' :: v ++ [')']) from rfl]
      rw [compileLoop_named p n2f u v (patOfSegs rest) i st hesc hpar herr hdrop0
        hu1 hu2 hu3 hv]
      have hdrop' : p.drop (i + (u.length + v.length + 3)) = patOfSegs rest := by
        have := drop_add_of_drop hdrop0 (u.length + v.length + 3)
        rw [show ('(' :: (u ++ '=' :: v ++ [')']) ++ patOfSegs rest).drop
              (u.length + v.length + 3) = patOfSegs rest from by
          rw [show ('(' :: (u ++ '=' :: v ++ [')']) ++ patOfSegs rest : Str) =
              ('(' :: (u ++ '=' :: v ++ [')'])) ++ patOfSegs rest from rfl]
          rw [show u.length + v.length + 3 =
              ('(' :: (u ++ '=' :: v ++ [')']) : Str).length from by
            simp [List.length_append, List.length_cons]
            omega]
          exact List.drop_left _ _] at this
        exact this
      obtain ⟨st', h1, h2, h3, h4⟩ := ih p n2f (i + (u.length + v.length + 3))
        { err := none,
          prefixV := if st.groupBegin = 0
            then removeEscapes (goSlice p st.groupEnd i) else st.prefixV,
          paramsIndex := mapInsert st.paramsIndex (mapFindD n2f u 0) st.paramIndex,
          paramIndex := st.paramIndex + 1,
          groupBegin := i,
          groupEnd := i + (u.length + v.length + 3),
          equals := i + 1 + u.length,
          parens := 0,
          regexpString := st.regexpString ++
            quoteMeta (removeEscapes (goSlice p st.groupEnd i)) ++ ['('] ++
            (v ++ [')']),
          escape := false } hok2 hdrop' rfl rfl rfl
      refine ⟨st', h1, h2, ?_, ?_⟩
      · rw [h3]
        simp [namedSlots, buildIdxFrom]
      · rw [h4]
        simp [namedSlots]
        omega

theorem compilePattern_segs (segs : List Seg) (n2f : List (Str × Nat))
    (hok : segsOK n2f segs = true) :
    ∃ re pfx, compilePattern (patOfSegs segs) n2f =
      { re := some re, pfxOut := pfx,
        pidx := buildIdxFrom [] 0 (namedSlots n2f segs), cErr := none } := by
  obtain ⟨st', h1, h2, h3, _⟩ := compileLoop_segs segs (patOfSegs segs) n2f 0
    {} hok (by simp) rfl rfl rfl
  unfold compilePattern
  rw [h1]
  simp only [h2, ne_eq, not_true_eq_false, if_false, reduceIte]
  rw [show (({} : CompState).paramsIndex) = ([] : List (Nat × Nat)) from rfl,
    show (({} : CompState).paramIndex) = 0 from rfl] at h3
  refine ⟨['^'] ++ (st'.regexpString ++ quoteMeta (removeEscapes
      (goSlice (patOfSegs segs) st'.groupEnd (patOfSegs segs).length))) ++ ['$'],
    if st'.groupBegin = 0 then removeEscapes
      (goSlice (patOfSegs segs) st'.groupEnd (patOfSegs segs).length)
    else st'.prefixV, ?_⟩
  rw [h3]

/-! ### Claim C9 -/

/-- C9: for every pattern assembled from well-formed segments (which is
every pattern the compiler accepts), compilation succeeds and the
group-to-slot mapping is exactly the named groups' schema slots mapped to
their consecutive ordinals among the named groups, counted from 0 in
pattern order: anonymous groups advance nothing and are absent from the
mapping. -/
theorem c9_slot_mapping (segs : List Seg) (n2f : List (Str × Nat))
    (hok : segsOK n2f segs = true) :
    ∃ re pfx, compilePattern (patOfSegs segs) n2f =
      { re := some re, pfxOut := pfx,
        pidx := buildIdxFrom [] 0 (namedSlots n2f segs), cErr := none } :=
  compilePattern_segs segs n2f hok

/-- Witness for C9: the pattern `/p(x?)/(v=.*)/e` against the scope
`{v ↦ slot 5}`: the anonymous group `(x?)` comes first yet does not
consume an ordinal; the named group `(v=...)` gets ordinal 0. -/
theorem c9_slot_mapping_witness :
    ∃ re pfx, compilePattern (patOfSegs
        [Seg.lit (strL "/p"), Seg.anon (strL "x?"), Seg.lit (strL "/"),
         Seg.named (strL "v") (strL ".*"), Seg.lit (strL "/e")])
        [(strL "v", 5)] =
      { re := some re, pfxOut := pfx, pidx := [(5, 0)], cErr := none } := by
  have h := c9_slot_mapping
    [Seg.lit (strL "/p"), Seg.anon (strL "x?"), Seg.lit (strL "/"),
     Seg.named (strL "v") (strL ".*"), Seg.lit (strL "/e")]
    [(strL "v", 5)] (by decide)
  rw [show buildIdxFrom [] 0 (namedSlots [(strL "v", 5)]
    [Seg.lit (strL "/p"), Seg.anon (strL "x?"), Seg.lit (strL "/"),
     Seg.named (strL "v") (strL ".*"), Seg.lit (strL "/e")]) = [(5, 0)] from by
    decide] at h
  exact h

theorem removeEscapes_clean : ∀ {s : Str}, cleanLit s = true → removeEscapes s = s := by
  intro s
  induction s with
  | nil => intro _; rfl
  | cons c cs ih =>
    intro h
    simp only [cleanLit, List.all_cons, Bool.and_eq_true, decide_eq_true_eq] at h
    obtain ⟨⟨⟨_, _⟩, h1⟩, h2⟩ := h
    have ih' := ih h2
    rw [show removeEscapes (c :: cs) = c :: removeEscapes cs from by
      cases cs <;> simp [removeEscapes, h1]]
    rw [ih']

theorem goSlice_self (p : Str) (a : Nat) : goSlice p a a = [] := by
  simp [goSlice]

theorem goSlice_take_left (x y : Str) : goSlice (x ++ y) 0 x.length = x := by
  simp [goSlice, List.take_left]

theorem compileLoop_nil (p : Str) (n2f : List (Str × Nat)) (i : Nat) (st : CompState) :
    compileLoop p n2f i [] st = .ok st := rfl

/-! ### Claim C7, amended -/

/-- C7, amended: the name separator of a group is its first `=`, regardless
of escaping and of the nesting depth at which it occurs; everything before
it is the variable name, everything after it up to the matching `)` is
copied verbatim into the compiled expression; a group containing no `=` at
all is anonymous, its entire content copied verbatim, bound to no slot.
First conjunct: a pattern `lit(u=v)` with a valid defined name `u` — `v`
arbitrary inner-regex text, which may itself contain `=` (only the first
one separates) and nested groups — compiles to `^lit'(v)$` binding `u`'s
slot to ordinal 0.  Second conjunct: a pattern `lit(g)` whose group has no
`=` compiles to `^lit'(g)$` binding nothing. -/
theorem c7_amended :
    (∀ (lit u v : Str) (n2f : List (Str × Nat)),
      cleanLit lit = true → cleanName u = true → allowedName u = true →
      (mapFind n2f u).isSome = true → innerOK v = true →
      compilePattern (lit ++ '(' :: u ++ '=' :: v ++ [')']) n2f =
        { re := some (['^'] ++ (quoteMeta lit ++ ['('] ++ (v ++ [')'])) ++ ['$']),
          pfxOut := lit, pidx := [(mapFindD n2f u 0, 0)], cErr := none }) ∧
    (∀ (lit g : Str) (n2f : List (Str × Nat)),
      cleanLit lit = true → g.contains '=' = false → innerOK g = true →
      compilePattern (lit ++ '(' :: g ++ [')']) n2f =
        { re := some (['^'] ++ (quoteMeta lit ++ ['('] ++ (g ++ [')'])) ++ ['$']),
          pfxOut := lit, pidx := [], cErr := none }) := by
  constructor
  · intro lit u v n2f hlit hu1 hu2 hu3 hv
    unfold compilePattern
    rw [show (lit ++ '(' :: u ++ '=' :: v ++ [')'] : Str) =
      lit ++ ('(' :: (u ++ '=' :: v ++ [')']) ++ ([] : Str)) from by simp]
    rw [compileLoop_lit _ n2f lit _ 0 {} hlit rfl rfl]
    rw [compileLoop_named _ n2f u v [] (0 + lit.length) {} rfl rfl rfl
      (by
        rw [show (0 + lit.length) = lit.length from by omega]
        rw [show (lit ++ ('(' :: (u ++ '=' :: v ++ [')']) ++ ([] : Str))).drop lit.length =
          '(' :: (u ++ '=' :: v ++ [')']) ++ ([] : Str) from List.drop_left _ _])
      hu1 hu2 hu3 hv]
    rw [compileLoop_nil]
    have hge : 0 + lit.length + (u.length + v.length + 3) =
        (lit ++ ('(' :: (u ++ '=' :: v ++ [')']) ++ ([] : Str))).length := by
      simp [List.length_append, List.length_cons]
      omega
    have hsl0 : goSlice (lit ++ ('(' :: (u ++ '=' :: v ++ [')']) ++ ([] : Str)))
        0 (0 + lit.length) = lit := by
      have h0 : (lit ++ ('(' :: (u ++ '=' :: v ++ [')']) ++ ([] : Str))).drop 0 =
          lit ++ ('(' :: (u ++ '=' :: v ++ [')']) ++ ([] : Str)) := by simp
      have := goSlice_of_drop h0
      simpa using this
    rw [hge]
    by_cases hl : lit = []
    · subst hl
      simp [goSlice_self, goSlice_take_left, removeEscapes, quoteMeta, mapInsert,
        mapFind, List.append_assoc]
    · have hll : ¬ (lit.length = 0) := by
        simpa [List.length_eq_zero] using hl
      simp [goSlice_self, goSlice_take_left, removeEscapes_clean hlit, removeEscapes,
        quoteMeta, hll, mapInsert, mapFind, List.append_assoc]
  · intro lit g n2f hlit hg1 hg2
    unfold compilePattern
    rw [show (lit ++ '(' :: g ++ [')'] : Str) =
      lit ++ ('(' :: (g ++ [')']) ++ ([] : Str)) from by simp]
    rw [compileLoop_lit _ n2f lit _ 0 {} hlit rfl rfl]
    rw [compileLoop_anon _ n2f g [] (0 + lit.length) {} rfl rfl rfl
      (by
        rw [show (0 + lit.length) = lit.length from by omega]
        rw [show (lit ++ ('(' :: (g ++ [')']) ++ ([] : Str))).drop lit.length =
          '(' :: (g ++ [')']) ++ ([] : Str) from List.drop_left _ _])
      hg1 hg2]
    rw [compileLoop_nil]
    have hge : 0 + lit.length + (g.length + 2) =
        (lit ++ ('(' :: (g ++ [')']) ++ ([] : Str))).length := by
      simp [List.length_append, List.length_cons]
    have hsl0 : goSlice (lit ++ ('(' :: (g ++ [')']) ++ ([] : Str)))
        0 (0 + lit.length) = lit := by
      have h0 : (lit ++ ('(' :: (g ++ [')']) ++ ([] : Str))).drop 0 =
          lit ++ ('(' :: (g ++ [')']) ++ ([] : Str)) := by simp
      have := goSlice_of_drop h0
      simpa using this
    rw [hge]
    by_cases hl : lit = []
    · subst hl
      simp [goSlice_self, goSlice_take_left, removeEscapes, quoteMeta,
        List.append_assoc]
    · have hll : ¬ (lit.length = 0) := by
        simpa [List.length_eq_zero] using hl
      simp [goSlice_self, goSlice_take_left, removeEscapes_clean hlit, removeEscapes,
        quoteMeta, hll, List.append_assoc]

/-- Witness for the amended C7: the group `(v1=a=(b)*)` after the literal
`/x`: the second `=` and the nested group land verbatim in the compiled
expression, and `v1`'s slot 4 is bound to ordinal 0; and the anonymous
`(/?)` after `/y` binds nothing. -/
theorem c7_amended_witness :
    compilePattern (strL "/x(v1=a=(b)*)") [(strL "v1", 4)] =
      { re := some (strL "^/x(a=(b)*)$"), pfxOut := strL "/x",
        pidx := [(4, 0)], cErr := none } ∧
    compilePattern (strL "/y(/?)") [] =
      { re := some (strL "^/y(/?)$"), pfxOut := strL "/y",
        pidx := [], cErr := none } := by
  constructor
  · have h := c7_amended.1 (strL "/x") (strL "v1") (strL "a=(b)*") [(strL "v1", 4)]
      (by decide) (by decide) (by decide) (by decide) (by decide)
    exact h.trans (by decide)
  · have h := c7_amended.2 (strL "/y") (strL "/?") [] (by decide) (by decide) (by decide)
    exact h.trans (by decide)

/-! ### Claim C8 -/

/-- Name validation of `compilePattern` at the separator, as a value: the
error it leaves pending (with the group's opening position + 1), or
`none` for a valid, defined name. -/
def nameErrOf (n2f : List (Str × Nat)) (u : Str) (pos : Nat) :
    Option PatternCompileError :=
  if u = [] then some { cause := .MissingVariableName, atPos := pos }
  else if !allowedName u then some { cause := .InvalidVariableName, name := u, atPos := pos }
  else if (mapFind n2f u).isNone then
    some { cause := .UndefinedVariable, name := u, atPos := pos }
  else none

theorem compileLoop_named_err (p : Str) (n2f : List (Str × Nat)) (u v tail : Str)
    (i : Nat) (st : CompState)
    (hesc : st.escape = false) (hpar : st.parens = 0) (herr : st.err = none)
    (hdrop : p.drop i = '(' :: (u ++ '=' :: v ++ [')']) ++ tail)
    (hu1 : cleanName u = true) (hv : innerOK v = true)
    (e0 : PatternCompileError) (hbad : nameErrOf n2f u (i + 1) = some e0) :
    compileLoop p n2f i ('(' :: (u ++ '=' :: v ++ [')']) ++ tail) st =
      .error (mapInsert st.paramsIndex (mapFindD n2f u 0) st.paramIndex,
        { e0 with currentGroup := '(' :: (u ++ '=' :: v ++ [')']), pattern := p }) := by
  obtain ⟨er, pv, pix, pc, gb, ge, eqv, par, rs, esc⟩ := st
  replace hesc : esc = false := hesc
  subst hesc
  replace hpar : par = 0 := hpar
  subst hpar
  replace herr : er = none := herr
  subst herr
  replace hdrop : p.drop i = '(' :: (u ++ '=' :: v ++ [')']) ++ tail := hdrop
  have hd1 : p.drop (i + 1) = u ++ ('=' :: ((v ++ [')']) ++ tail)) := by
    have := drop_add_of_drop hdrop 1
    simpa [List.append_assoc] using this
  have hsl1 : goSlice p (i + 1) (i + 1 + u.length) = u := goSlice_of_drop hd1
  have hslG : goSlice p i (i + (u.length + (v.length + 3))) =
      '(' :: (u ++ '=' :: v ++ [')']) := by
    have h0 : p.drop i = ('(' :: (u ++ '=' :: v ++ [')'])) ++ tail := hdrop
    have := goSlice_of_drop h0
    rw [show ('(' :: (u ++ '=' :: v ++ [')']) : Str).length =
      u.length + (v.length + 3) from by
      simp [List.length_append, List.length_cons]
      omega] at this
    exact this
  show compileLoop p n2f i ('(' :: ((u ++ '=' :: v ++ [')']) ++ tail)) _ = _
  rw [show compileLoop p n2f i ('(' :: ((u ++ '=' :: v ++ [')']) ++ tail))
        ⟨none, pv, pix, pc, gb, ge, eqv, 0, rs, false⟩ =
      compileLoop p n2f (i + 1) ((u ++ '=' :: v ++ [')']) ++ tail)
        ⟨none, if gb = 0 then removeEscapes (goSlice p ge i) else pv, pix, pc, i, ge, i, 1,
          rs ++ (quoteMeta (removeEscapes (goSlice p ge i)) ++ ['(']), false⟩ from by
    simp [compileLoop]]
  simp only [List.append_assoc, List.cons_append, List.singleton_append, List.nil_append]
  rw [compileLoop_namepart p n2f u ('=' :: (v ++ ')' :: tail)) (i + 1) _ hu1 rfl
    (by show 1 ≤ 1; omega)]
  rw [show compileLoop p n2f (i + 1 + u.length) ('=' :: (v ++ ')' :: tail))
        ⟨none, if gb = 0 then removeEscapes (goSlice p ge i) else pv, pix, pc, i, ge, i, 1,
          rs ++ (quoteMeta (removeEscapes (goSlice p ge i)) ++ ['(']), false⟩ =
      compileLoop p n2f (i + 1 + u.length + 1) (v ++ ')' :: tail)
        ⟨nameErrOf n2f u (i + 1),
          if gb = 0 then removeEscapes (goSlice p ge i) else pv,
          mapInsert pix (mapFindD n2f u 0) pc, pc + 1, i, ge, i + 1 + u.length, 1,
          rs ++ (quoteMeta (removeEscapes (goSlice p ge i)) ++ ['(']), false⟩ from by
    simp [compileLoop, hsl1, nameErrOf]]
  rw [compileLoop_inner p n2f v (')' :: tail) (i + 1 + u.length + 1) _ rfl
    (by show 1 ≤ 1; omega) (by simpa [innerOK] using hv)
    (Or.inl (by show i + 1 + u.length ≠ i; omega))]
  rw [show (⟨nameErrOf n2f u (i + 1),
        if gb = 0 then removeEscapes (goSlice p ge i) else pv,
        mapInsert pix (mapFindD n2f u 0) pc, pc + 1, i, ge, i + 1 + u.length, 1,
        rs ++ (quoteMeta (removeEscapes (goSlice p ge i)) ++ ['(']),
        false⟩ : CompState) =
      ⟨some e0, if gb = 0 then removeEscapes (goSlice p ge i) else pv,
        mapInsert pix (mapFindD n2f u 0) pc, pc + 1, i, ge, i + 1 + u.length, 1,
        rs ++ (quoteMeta (removeEscapes (goSlice p ge i)) ++ ['(']), false⟩ from by
    rw [hbad]]
  rw [show compileLoop p n2f (i + 1 + u.length + 1 + v.length) (')' :: tail)
        ⟨some e0, if gb = 0 then removeEscapes (goSlice p ge i) else pv,
          mapInsert pix (mapFindD n2f u 0) pc, pc + 1, i, ge, i + 1 + u.length, 1,
          rs ++ (quoteMeta (removeEscapes (goSlice p ge i)) ++ ['(']), false⟩ =
      Except.error (mapInsert pix (mapFindD n2f u 0) pc,
        { e0 with
          currentGroup := goSlice p i (i + 1 + u.length + 1 + v.length + 1), pattern := p }) from by
    simp [compileLoop]]
  rw [show goSlice p i (i + 1 + u.length + 1 + v.length + 1) =
      '(' :: (u ++ '=' :: v ++ [')']) from by
    rw [show i + 1 + u.length + 1 + v.length + 1 = i + (u.length + (v.length + 3)) from by
      omega]
    exact hslG]
  simp [List.append_assoc]

/-- Depth walk of a group that never closes: scanning from depth `d ≥ 1`,
the parenthesis depth never returns to 0 up to the end of the pattern. -/
def noClose : Str → Nat → Bool
  | [], _ => true
  | c :: r, d =>
    if c = '(' then noClose r (d + 1)
    else if c = ')' then decide (2 ≤ d) && noClose r (d - 1)
    else noClose r d

theorem compileLoop_noClose (p : Str) (n2f : List (Str × Nat)) :
    ∀ (g : Str) (i : Nat) (st : CompState),
      st.escape = false → 1 ≤ st.parens → noClose g st.parens = true →
      ∃ st', compileLoop p n2f i g st = .ok st' ∧ 1 ≤ st'.parens ∧
        st'.groupBegin = st.groupBegin := by
  intro g
  induction g with
  | nil =>
    intro i st hesc hpar _
    exact ⟨st, rfl, hpar, rfl⟩
  | cons c cs ih =>
    intro i st hesc hpar hnc
    obtain ⟨er, pv, pix, pc, gb, ge, eqv, par, rs, esc⟩ := st
    replace hesc : esc = false := hesc
    subst hesc
    replace hpar : 1 ≤ par := hpar
    replace hnc : noClose (c :: cs) par = true := hnc
    have hp0 : ¬ (par = 0) := by omega
    by_cases hco : c = '('
    · subst hco
      have hnc' : noClose cs (par + 1) = true := by simpa [noClose] using hnc
      rw [show compileLoop p n2f i ('(' :: cs)
            ⟨er, pv, pix, pc, gb, ge, eqv, par, rs, false⟩ =
          compileLoop p n2f (i + 1) cs
            ⟨er, pv, pix, pc, gb, ge, eqv, par + 1, rs, false⟩ from by
        simp [compileLoop, hp0]]
      exact ih (i + 1) _ rfl (show 1 ≤ par + 1 by omega) hnc'
    · by_cases hcc : c = ')'
      · subst hcc
        simp [noClose] at hnc
        have hd2 : 2 ≤ par := hnc.1
        have hne : ¬ (par - 1 = 0) := by omega
        rw [show compileLoop p n2f i (')' :: cs)
              ⟨er, pv, pix, pc, gb, ge, eqv, par, rs, false⟩ =
            compileLoop p n2f (i + 1) cs
              ⟨er, pv, pix, pc, gb, ge, eqv, par - 1, rs, false⟩ from by
          simp [compileLoop, hp0, hne]]
        exact ih (i + 1) _ rfl (show 1 ≤ par - 1 by omega) hnc.2
      · have hnc' : noClose cs par = true := by simpa [noClose, hco, hcc] using hnc
        by_cases hce : c = '='
        · subst hce
          by_cases hguard : eqv = gb
          · rw [show compileLoop p n2f i ('=' :: cs)
                  ⟨er, pv, pix, pc, gb, ge, eqv, par, rs, false⟩ =
                compileLoop p n2f (i + 1) cs
                  ⟨(if goSlice p (gb + 1) i = [] then
                      some { cause := .MissingVariableName, atPos := gb + 1 }
                    else if !allowedName (goSlice p (gb + 1) i) then
                      some { cause := .InvalidVariableName,
                             name := goSlice p (gb + 1) i, atPos := gb + 1 }
                    else if (mapFind n2f (goSlice p (gb + 1) i)).isNone then
                      some { cause := .UndefinedVariable,
                             name := goSlice p (gb + 1) i, atPos := gb + 1 }
                    else er),
                   pv, mapInsert pix (mapFindD n2f (goSlice p (gb + 1) i) 0) pc,
                   pc + 1, gb, ge, i, par, rs, false⟩ from by
              simp [compileLoop, hp0, hguard]]
            exact ih (i + 1) _ rfl hpar hnc'
          · rw [show compileLoop p n2f i ('=' :: cs)
                  ⟨er, pv, pix, pc, gb, ge, eqv, par, rs, false⟩ =
                compileLoop p n2f (i + 1) cs
                  ⟨er, pv, pix, pc, gb, ge, eqv, par, rs, false⟩ from by
              simp [compileLoop, hp0, hguard]]
            exact ih (i + 1) _ rfl hpar hnc'
        · rw [show compileLoop p n2f i (c :: cs)
                ⟨er, pv, pix, pc, gb, ge, eqv, par, rs, false⟩ =
              compileLoop p n2f (i + 1) cs
                ⟨er, pv, pix, pc, gb, ge, eqv, par, rs, false⟩ from by
            simp [compileLoop, hp0, hco, hcc, hce]]
          exact ih (i + 1) _ rfl hpar hnc'

/-- C8: pattern-compile error reporting.  First conjunct: a name error —
missing, invalid or undefined, as classified by `nameErrOf` — on the group
`(u=v)` is returned only when the group's closing paren has been scanned,
carrying the whole group substring `(u=v)` and the position just after the
group's opening paren.  Second conjunct: an unescaped `)` at depth 0 is an
immediate `UnmatchedRightParen` at its own position, whatever follows it.
Third conjunct: a pattern that ends inside an unclosed group — whatever
the group holds, name errors pending included — is an `Unterminated`
error reported at the opening position of the outermost unclosed
group. -/
theorem c8_error_reporting :
    (∀ (lit u v : Str) (n2f : List (Str × Nat)) (e0 : PatternCompileError),
      cleanLit lit = true → cleanName u = true → innerOK v = true →
      nameErrOf n2f u (lit.length + 1) = some e0 →
      compilePattern (lit ++ '(' :: u ++ '=' :: v ++ [')']) n2f =
        { re := none, pfxOut := [],
          pidx := mapInsert [] (mapFindD n2f u 0) 0,
          cErr := some { e0 with
            currentGroup := '(' :: u ++ '=' :: v ++ [')'], pattern := lit ++ '(' :: u ++ '=' :: v ++ [')'] } }) ∧
    (∀ (lit rest : Str) (n2f : List (Str × Nat)),
      cleanLit lit = true →
      compilePattern (lit ++ ')' :: rest) n2f =
        { re := none, pfxOut := [], pidx := [],
          cErr := some { cause := .UnmatchedRightParen, pattern := (lit ++ ')' :: rest), atPos := lit.length } }) ∧
    (∀ (lit g : Str) (n2f : List (Str × Nat)),
      cleanLit lit = true → noClose g 1 = true →
      (compilePattern (lit ++ '(' :: g) n2f).cErr =
        some { cause := .Unterminated, pattern := (lit ++ '(' :: g), atPos := lit.length } ∧
      (compilePattern (lit ++ '(' :: g) n2f).re = none) := by
  refine ⟨?_, ?_, ?_⟩
  · intro lit u v n2f e0 hlit hu1 hv hbad
    unfold compilePattern
    rw [show (lit ++ '(' :: u ++ '=' :: v ++ [')'] : Str) =
      lit ++ ('(' :: (u ++ '=' :: v ++ [')']) ++ ([] : Str)) from by simp]
    rw [compileLoop_lit _ n2f lit _ 0 {} hlit rfl rfl]
    rw [compileLoop_named_err _ n2f u v [] (0 + lit.length) {} rfl rfl rfl
      (by
        rw [show (0 + lit.length) = lit.length from by omega]
        rw [show (lit ++ ('(' :: (u ++ '=' :: v ++ [')']) ++ ([] : Str))).drop lit.length =
          '(' :: (u ++ '=' :: v ++ [')']) ++ ([] : Str) from List.drop_left _ _])
      hu1 hv e0
      (by rw [show (0 + lit.length + 1) = lit.length + 1 from by omega]; exact hbad)]
    simp [List.append_assoc]
  · intro lit rest n2f hlit
    unfold compilePattern
    rw [compileLoop_lit _ n2f lit (')' :: rest) 0 {} hlit rfl rfl]
    rw [show compileLoop (lit ++ ')' :: rest) n2f (0 + lit.length) (')' :: rest) {} =
        Except.error (([] : List (Nat × Nat)),
          { cause := .UnmatchedRightParen, pattern := (lit ++ ')' :: rest), atPos := 0 + lit.length }) from by
      simp [compileLoop]]
    simp
  · intro lit g n2f hlit hnc
    obtain ⟨st', hok, hp1, hgb⟩ := compileLoop_noClose (lit ++ '(' :: g) n2f g
      (0 + lit.length + 1)
      ⟨none, removeEscapes (goSlice (lit ++ '(' :: g) 0 (0 + lit.length)), [], 0,
        0 + lit.length, 0, 0 + lit.length, 1,
        quoteMeta (removeEscapes (goSlice (lit ++ '(' :: g) 0 (0 + lit.length))) ++ ['('],
        false⟩
      rfl (show 1 ≤ 1 from by omega) (show noClose g 1 = true from hnc)
    have hne0 : st'.parens ≠ 0 := by omega
    have hmain : compilePattern (lit ++ '(' :: g) n2f =
        { re := none, pfxOut := [], pidx := st'.paramsIndex,
          cErr := some { cause := .Unterminated, pattern := (lit ++ '(' :: g), atPos := st'.groupBegin } } := by
      unfold compilePattern
      rw [compileLoop_lit _ n2f lit ('(' :: g) 0 {} hlit rfl rfl]
      rw [show compileLoop (lit ++ '(' :: g) n2f (0 + lit.length) ('(' :: g) {} =
          compileLoop (lit ++ '(' :: g) n2f (0 + lit.length + 1) g
            ⟨none, removeEscapes (goSlice (lit ++ '(' :: g) 0 (0 + lit.length)), [], 0,
              0 + lit.length, 0, 0 + lit.length, 1,
              quoteMeta (removeEscapes (goSlice (lit ++ '(' :: g) 0 (0 + lit.length))) ++
                ['('], false⟩ from by
        simp [compileLoop]]
      rw [hok]
      simp [hne0]
    rw [hmain]
    rw [hgb]
    simp

/-- Witness for C8, on the failure cases of the Go test-suite: the
undefined variable `v2` (reported with the whole group `(v2=abc)` at
offset 9 once the group closed), the unmatched `)` at offset 8, and the
unterminated group of `/prefix/(v1=` at offset 8. -/
theorem c8_error_reporting_witness :
    compilePattern (strL "/prefix/(v2=abc)") [(strL "v1", 1)] =
      { re := none, pfxOut := [], pidx := [(0, 0)],
        cErr := some { cause := .UndefinedVariable,
                       currentGroup := strL "(v2=abc)",
                       pattern := strL "/prefix/(v2=abc)",
                       name := strL "v2", atPos := 9 } } ∧
    compilePattern (strL "/prefix/)(v2=abc)") [(strL "v1", 1)] =
      { re := none, pfxOut := [], pidx := [],
        cErr := some { cause := .UnmatchedRightParen,
                       pattern := strL "/prefix/)(v2=abc)", atPos := 8 } } ∧
    ((compilePattern (strL "/prefix/(v1=") [(strL "v1", 1)]).cErr =
      some { cause := .Unterminated, pattern := strL "/prefix/(v1=", atPos := 8 } ∧
     (compilePattern (strL "/prefix/(v1=") [(strL "v1", 1)]).re = none) := by
  refine ⟨?_, ?_, ?_⟩
  · have h := c8_error_reporting.1 (strL "/prefix/") (strL "v2") (strL "abc")
      [(strL "v1", 1)]
      { cause := .UndefinedVariable, name := strL "v2", atPos := 9 }
      (by decide) (by decide) (by decide) (by decide)
    rw [show (strL "/prefix/" ++ '(' :: strL "v2" ++ '=' :: strL "abc" ++ [')'] : Str) =
      strL "/prefix/(v2=abc)" from by decide] at h
    exact h.trans (by decide)
  · have h := c8_error_reporting.2.1 (strL "/prefix/") (strL "(v2=abc)")
      [(strL "v1", 1)] (by decide)
    rw [show (strL "/prefix/" ++ ')' :: strL "(v2=abc)" : Str) =
      strL "/prefix/)(v2=abc)" from by decide] at h
    exact h.trans (by decide)
  · have h := c8_error_reporting.2.2 (strL "/prefix/") (strL "v1=")
      [(strL "v1", 1)] (by decide) (by decide)
    rw [show (strL "/prefix/" ++ '(' :: strL "v1=" : Str) =
      strL "/prefix/(v1=" from by decide] at h
    exact ⟨h.1.trans (by decide), h.2⟩

/-! ### Claim C10 -/

theorem mapFind_mem [DecidableEq α] :
    ∀ (m : List (α × β)) (k : α) (v : β), mapFind m k = some v → (k, v) ∈ m := by
  intro m
  induction m with
  | nil => intro k v h; simp [mapFind] at h
  | cons p rest ih =>
    intro k v h
    obtain ⟨k', v'⟩ := p
    by_cases hk : k' = k
    · subst hk
      simp [mapFind] at h
      subst h
      exact List.mem_cons_self _ _
    · simp [mapFind, hk] at h
      exact List.mem_cons_of_mem _ (ih k v h)

theorem mapInsert_mem [DecidableEq α] :
    ∀ (m : List (α × β)) (k : α) (v : β) (e : α × β),
      e ∈ mapInsert m k v → e ∈ m ∨ e = (k, v) := by
  intro m k v e h
  unfold mapInsert at h
  by_cases hs : (mapFind m k).isSome = true
  · rw [if_pos hs] at h
    obtain ⟨p, hp, hpe⟩ := List.mem_map.mp h
    by_cases hpk : p.1 = k
    · rw [if_pos hpk] at hpe
      exact Or.inr hpe.symm
    · rw [if_neg hpk] at hpe
      exact Or.inl (hpe ▸ hp)
  · rw [if_neg hs] at h
    rcases List.mem_append.mp h with h1 | h1
    · exact Or.inl h1
    · exact Or.inr (List.mem_singleton.mp h1)

theorem readParamsGo_sound (d : List GoField) :
    ∀ (fs : List GoField) (i : Nat) (acc n2f : List (Str × Nat)),
      d.drop i = fs →
      (∀ e ∈ acc, e.2 < d.length ∧ allowedType ((d.getD e.2 default).kind) = true) →
      readParamsGo fs i acc = .ok n2f →
      ∀ e ∈ n2f, e.2 < d.length ∧ allowedType ((d.getD e.2 default).kind) = true := by
  intro fs
  induction fs with
  | nil =>
    intro i acc n2f _ hacc h
    simp only [readParamsGo] at h
    injection h with h
    subst h
    exact hacc
  | cons f fs ih =>
    intro i acc n2f hdrop hacc h
    have hlen : i < d.length := by
      by_contra hge
      push_neg at hge
      rw [List.drop_eq_nil_of_le hge] at hdrop
      exact List.cons_ne_nil f fs hdrop.symm
    have hfi : d.getD i default = f := by
      have h0 : (d.drop i)[0]? = some f := by rw [hdrop]; simp
      rw [List.getElem?_drop] at h0
      simp only [Nat.add_zero] at h0
      simp [List.getD_eq_getElem?_getD, h0]
    have hdrop' : d.drop (i + 1) = fs := by
      have h1 : List.drop 1 (List.drop i d) = List.drop (i + 1) d :=
        List.drop_drop 1 i d
      rw [hdrop] at h1
      simpa using h1.symm
    simp only [readParamsGo] at h
    by_cases htag : f.tag ≠ []
    · rw [if_pos htag] at h
      by_cases hn : (!allowedName f.tag) = true
      · rw [if_pos hn] at h
        exact absurd h (by simp)
      · rw [if_neg hn] at h
        by_cases ht : (!allowedType f.kind) = true
        · rw [if_pos ht] at h
          exact absurd h (by simp)
        · rw [if_neg ht] at h
          refine ih (i + 1) _ n2f hdrop' ?_ h
          intro e he
          rcases mapInsert_mem acc f.tag i e he with h1 | h1
          · exact hacc e h1
          · subst h1
            refine ⟨hlen, ?_⟩
            rw [hfi]
            simpa using ht
    · rw [if_neg htag] at h
      by_cases hc : (allowedType f.kind && allowedName f.fname &&
          (mapFind acc f.fname).isNone) = true
      · rw [if_pos hc] at h
        refine ih (i + 1) _ n2f hdrop' ?_ h
        intro e he
        rcases mapInsert_mem acc f.fname i e he with h1 | h1
        · exact hacc e h1
        · subst h1
          refine ⟨hlen, ?_⟩
          rw [hfi]
          simp only [Bool.and_eq_true] at hc
          exact hc.1.1
      · rw [if_neg hc] at h
        exact ih (i + 1) _ n2f hdrop' hacc h

theorem readParams_sound (d : List GoField) (n2f : List (Str × Nat))
    (pty : Option (List GoField))
    (hrp : readParams (some d) = .ok (n2f, pty)) :
    ∀ e ∈ n2f, e.2 < d.length ∧ allowedType ((d.getD e.2 default).kind) = true := by
  have hrp2 : Except.map (fun m => (m, some d)) (readParamsGo d 0 []) =
      .ok (n2f, pty) := hrp
  clear hrp
  rename' hrp2 => hrp
  cases h : readParamsGo d 0 [] with
  | error e => rw [h] at hrp; exact absurd hrp (by simp [Except.map])
  | ok m =>
    rw [h] at hrp
    simp only [Except.map] at hrp
    injection hrp with hrp
    have hm : m = n2f := by
      have := congrArg Prod.fst hrp
      simpa using this
    subst hm
    exact readParamsGo_sound d d 0 [] m rfl (by intro e he; simp at he) h

theorem buildIdx_mem :
    ∀ (sl : List Nat) (m : List (Nat × Nat)) (k : Nat) (e : Nat × Nat),
      e ∈ buildIdxFrom m k sl →
      e ∈ m ∨ (e.1 ∈ sl ∧ k ≤ e.2 ∧ e.2 < k + sl.length) := by
  intro sl
  induction sl with
  | nil => intro m k e h; exact Or.inl h
  | cons s rest ih =>
    intro m k e h
    simp only [buildIdxFrom] at h
    rcases ih (mapInsert m s k) (k + 1) e h with h1 | h1
    · rcases mapInsert_mem m s k e h1 with h2 | h2
      · exact Or.inl h2
      · subst h2
        exact Or.inr ⟨List.mem_cons_self _ _, le_refl k, by simp [List.length_cons]⟩
    · exact Or.inr ⟨List.mem_cons_of_mem _ h1.1, by omega, by
        simp [List.length_cons]
        omega⟩

theorem namedSlots_mem (n2f : List (Str × Nat)) :
    ∀ (segs : List Seg), segsOK n2f segs = true →
      ∀ s ∈ namedSlots n2f segs, ∃ nm, mapFind n2f nm = some s := by
  intro segs
  induction segs with
  | nil => intro _ s hs; simp [namedSlots] at hs
  | cons sg rest ih =>
    intro hok s hs
    simp only [segsOK, List.all_cons, Bool.and_eq_true] at hok
    cases sg with
    | lit l => exact ih hok.2 s hs
    | anon g => exact ih hok.2 s hs
    | named u v =>
      simp only [namedSlots] at hs
      rcases List.mem_cons.mp hs with h1 | h1
      · subst h1
        simp only [segOK, Bool.and_eq_true] at hok
        obtain ⟨⟨⟨⟨_, _⟩, hu3⟩, _⟩, _⟩ := hok
        obtain ⟨w, hw⟩ := Option.isSome_iff_exists.mp hu3
        exact ⟨u, by simp [mapFindD, hw]⟩
      · exact ih hok.2 s h1

/-- Number of groups of a segment list (one top-level capture each in the
compiled regular expression). -/
def numGroups : List Seg → Nat
  | [] => 0
  | .lit _ :: rest => numGroups rest
  | _ :: rest => numGroups rest + 1

theorem namedSlots_length_le (n2f : List (Str × Nat)) :
    ∀ (segs : List Seg), (namedSlots n2f segs).length ≤ numGroups segs := by
  intro segs
  induction segs with
  | nil => simp [namedSlots, numGroups]
  | cons sg rest ih =>
    cases sg with
    | lit l => simpa [namedSlots, numGroups] using ih
    | anon g => simp [namedSlots, numGroups]; omega
    | named u v => simp [namedSlots, numGroups]; omega

theorem coerceLoop_no_panic (fields : List GoField) (vals : List Str) :
    ∀ (l : List (Nat × Nat)),
      (∀ e ∈ l, e.1 < fields.length ∧
        allowedType ((fields.getD e.1 default).kind) = true ∧
        e.2 < vals.length) →
      ∀ msg, coerceLoop fields vals l ≠ .panicked msg := by
  intro l
  induction l with
  | nil => intro _ msg; simp [coerceLoop]
  | cons fv rest ih =>
    intro h msg
    obtain ⟨f, v⟩ := fv
    obtain ⟨hf, hk, hv⟩ := h (f, v) (List.mem_cons_self _ _)
    have ihr := ih (fun e he => h e (List.mem_cons_of_mem _ he))
    simp only [coerceLoop, if_pos hf, if_pos hv]
    cases hkind : (fields.getD f default).kind
    case sliceK =>
      rw [hkind] at hk
      simp [allowedType] at hk
    case boolK =>
      rw [hkind] at hk
      simp [allowedType] at hk
    all_goals
      first
      | (cases hp : goParseInt (vals.getD v []) <;>
          simp only [hp, Option.map] <;>
          first
          | (simp; done)
          | (cases hrec : coerceLoop fields vals rest <;>
              first
              | (simp; done)
              | exact absurd hrec (ihr _)))
      | (cases hp : goParseUint (vals.getD v []) <;>
          simp only [hp, Option.map] <;>
          first
          | (simp; done)
          | (cases hrec : coerceLoop fields vals rest <;>
              first
              | (simp; done)
              | exact absurd hrec (ihr _)))
      | (cases hp : goParseFloat (vals.getD v []) <;>
          simp only [hp, Option.map] <;>
          first
          | (simp; done)
          | (cases hrec : coerceLoop fields vals rest <;>
              first
              | (simp; done)
              | exact absurd hrec (ihr _)))

/-- C10: for every route registered successfully — the parameter resolver
`readParams` returns a scope without error and the pattern (one of the
well-formed segment family, which characterizes the accepted patterns)
compiles without error — and every capture-range list the anchored regex
can return for a matching path (one top-level range per group, possibly
with nested ranges), the parameter-coercion loop never reaches the
`default` panic branch of the kind switch nor an out-of-range index:
every field ordinal in the group-to-slot mapping is a valid index of an
allowed-kind field, and every value ordinal is a valid index into the
extracted capture-value list. -/
theorem c10_coercion_safety (segs : List Seg) (d : List GoField)
    (n2f : List (Str × Nat)) (pty : Option (List GoField)) (path : Str)
    (caps ts : List (Int × Int))
    (hrp : readParams (some d) = .ok (n2f, pty))
    (hok : segsOK n2f segs = true)
    (hn : Nests 0 caps ts)
    (hts : ts.length = numGroups segs) :
    (∀ e ∈ (compilePattern (patOfSegs segs) n2f).pidx,
      e.1 < d.length ∧ allowedType ((d.getD e.1 default).kind) = true ∧
      e.2 < (extractVals path caps).length) ∧
    (∀ msg, coerceParams d (compilePattern (patOfSegs segs) n2f).pidx
      (extractVals path caps) ≠ .panicked msg) := by
  obtain ⟨re, pfx, hcp⟩ := compilePattern_segs segs n2f hok
  have hpidx : (compilePattern (patOfSegs segs) n2f).pidx =
      buildIdxFrom [] 0 (namedSlots n2f segs) := by rw [hcp]
  have hvlen : (extractVals path caps).length = ts.length := by
    have hev : extractLoop path 0 caps =
        ts.map (fun p => strSlice path p.1 p.2) := extractLoop_nests path hn
    simp [extractVals, hev]
  have hmem : ∀ e ∈ (compilePattern (patOfSegs segs) n2f).pidx,
      e.1 < d.length ∧ allowedType ((d.getD e.1 default).kind) = true ∧
      e.2 < (extractVals path caps).length := by
    intro e he
    rw [hpidx] at he
    rcases buildIdx_mem (namedSlots n2f segs) [] 0 e he with h1 | h1
    · exact absurd h1 (List.not_mem_nil e)
    · obtain ⟨hs, _, hlt⟩ := h1
      obtain ⟨nm, hnm⟩ := namedSlots_mem n2f segs hok e.1 hs
      have hp := readParams_sound d n2f pty hrp (nm, e.1)
        (mapFind_mem n2f nm e.1 hnm)
      refine ⟨hp.1, hp.2, ?_⟩
      have h2 := namedSlots_length_le n2f segs
      omega
  refine ⟨hmem, ?_⟩
  intro msg
  exact coerceLoop_no_panic d (extractVals path caps)
    (compilePattern (patOfSegs segs) n2f).pidx hmem msg

/-- Concrete segment form of the test pattern `/(V1=.*)/(V2=.*)`. -/
def segsC10 : List Seg :=
  [Seg.lit (strL "/"), Seg.named (strL "V1") (strL ".*"),
   Seg.lit (strL "/"), Seg.named (strL "V2") (strL ".*")]

/-- Witness for C10 at pattern `/(V1=.*)/(V2=.*)` with params
`{V1:int, V2:string}`, path `/123/abc` and the capture ranges of the
anchored match. -/
theorem c10_coercion_safety_witness :
    (∀ e ∈ (compilePattern (patOfSegs segsC10)
        [(strL "V1", 0), (strL "V2", 1)]).pidx,
      e.1 < fieldsP2.length ∧
      allowedType ((fieldsP2.getD e.1 default).kind) = true ∧
      e.2 < (extractVals (strL "/123/abc") [(1, 4), (5, 8)]).length) ∧
    (∀ msg, coerceParams fieldsP2
      (compilePattern (patOfSegs segsC10) [(strL "V1", 0), (strL "V2", 1)]).pidx
      (extractVals (strL "/123/abc") [(1, 4), (5, 8)]) ≠ .panicked msg) := by
  have hn : Nests 0 [((1 : Int), (4 : Int)), (5, 8)] [(1, 4), (5, 8)] :=
    Nests.keep 0 1 4 _ _ (by norm_num)
      (Nests.keep 4 5 8 _ _ (by norm_num) (Nests.nil 8))
  exact c10_coercion_safety segsC10 fieldsP2 [(strL "V1", 0), (strL "V2", 1)]
    (some fieldsP2) (strL "/123/abc") [(1, 4), (5, 8)] [(1, 4), (5, 8)]
    (by rfl) (by decide) hn (by decide)
